import Mathlib

/-!
# Verification of the Enhanced PDF Generator

A shallow embedding of the two PDF serializer variants found in
`enhanced-pdf-generator.js`:

* the *multi-page* variant (`v1.0.0` code: `_processTextToLines`,
  `_createPDFDocument`, `_buildPDFFile`, `_validatePDFStructure`,
  `_escapeString`, option sanitisation), and
* the *single-stream* variant (`v2.1.0` code: `_generateStablePDF`,
  `_generateContentStream`, `_hexToRgb`, `_escapePDFString`).

JavaScript strings are modelled as `List Char` of Unicode scalar values;
`jsLen` gives the UTF-16 code-unit count (JavaScript `.length`), `encB`
the per-code-unit `'binary'`/latin1 byte encoding (`Buffer.from(s,'binary')`)
and `encU` the UTF-8 byte encoding (`Buffer.from(s,'utf8')`).
Numeric option values are modelled as exact fractions (`JsNum`, an
integer numerator with a positive denominator, interpreted in `ℚ` by
`qval`); the doubles appearing in the source (`0.6`, `1.5`) are exact
there up to representation error that none of the claims depends on.
-/

set_option autoImplicit false
set_option maxRecDepth 8000

namespace PdfGen

/-- JavaScript string contents: a list of Unicode scalar values. -/
abbrev Str := List Char

/-- Shorthand turning a Lean string literal into its character list. -/
def str (s : String) : Str := s.data

/-! ## Segment (substring) toolkit over lists -/

/-- `sw p s`: the list `s` starts with the pattern `p`. -/
def sw {α : Type} (p s : List α) : Prop := ∃ t, s = p ++ t

/-- `segAt p s i`: the pattern `p` occurs in `s` starting at index `i`. -/
def segAt {α : Type} (p s : List α) (i : Nat) : Prop := sw p (s.drop i)

/-- `hasSeg p s`: the pattern `p` occurs somewhere in `s`
(JavaScript `s.includes(p)`). -/
def hasSeg {α : Type} (p s : List α) : Prop := ∃ i, segAt p s i

/-- Boolean prefix test (kernel-friendly shape). -/
def swB {α : Type} [DecidableEq α] : List α → List α → Bool
  | [], _ => true
  | _ :: _, [] => false
  | a :: p, b :: s => if a = b then swB p s else false

theorem swB_iff {α : Type} [DecidableEq α] : ∀ p s : List α, swB p s = true ↔ sw p s
  | [], s => iff_of_true rfl ⟨s, rfl⟩
  | a :: p, [] => by
    simp only [swB]
    exact iff_of_false (by simp) (by rintro ⟨t, ht⟩; cases ht)
  | a :: p, b :: s => by
    simp only [swB]
    by_cases hab : a = b
    · rw [if_pos hab, swB_iff p s]
      subst hab
      constructor
      · rintro ⟨t, rfl⟩; exact ⟨t, rfl⟩
      · rintro ⟨t, ht⟩
        injection ht with _ h2
        exact ⟨t, h2⟩
    · rw [if_neg hab]
      refine iff_of_false (by simp) ?_
      rintro ⟨t, ht⟩
      injection ht with h1 _
      exact hab h1.symm

instance {α : Type} [DecidableEq α] (p s : List α) : Decidable (sw p s) :=
  decidable_of_iff _ (swB_iff p s)

instance {α : Type} [DecidableEq α] (p s : List α) (i : Nat) : Decidable (segAt p s i) := by
  unfold segAt; infer_instance

/-- Boolean occurrence search (kernel-friendly shape). -/
def hasSegB {α : Type} [DecidableEq α] (p : List α) : List α → Bool
  | [] => swB p []
  | b :: s => if swB p (b :: s) then true else hasSegB p s

theorem hasSegB_iff {α : Type} [DecidableEq α] (p s : List α) :
    hasSegB p s = true ↔ hasSeg p s := by
  induction s with
  | nil =>
    simp only [hasSegB, swB_iff]
    constructor
    · intro h; exact ⟨0, h⟩
    · rintro ⟨i, hi⟩
      simpa [segAt] using hi
  | cons b s ih =>
    simp only [hasSegB]
    by_cases hsw : swB p (b :: s) = true
    · rw [if_pos hsw]
      exact iff_of_true rfl ⟨0, (swB_iff p (b :: s)).mp hsw⟩
    · rw [if_neg hsw, ih]
      constructor
      · rintro ⟨i, hi⟩
        exact ⟨i + 1, hi⟩
      · rintro ⟨i, hi⟩
        cases i with
        | zero => exact absurd ((swB_iff p (b :: s)).mpr hi) hsw
        | succ k => exact ⟨k, hi⟩

instance {α : Type} [DecidableEq α] (p s : List α) : Decidable (hasSeg p s) :=
  decidable_of_iff _ (hasSegB_iff p s)

/-- `noSeg p s`: the pattern `p` occurs nowhere in `s`. -/
def noSeg {α : Type} (p s : List α) : Prop := ¬ hasSeg p s

instance {α : Type} [DecidableEq α] (p s : List α) : Decidable (noSeg p s) := by
  unfold noSeg; infer_instance

/-- Accumulator-passing body of `firstIdx` (kernel-friendly shape). -/
def firstIdxGo {α : Type} [DecidableEq α] (p : List α) : Nat → List α → Option Nat
  | i, [] => if swB p [] then some i else none
  | i, b :: rest =>
    if swB p (b :: rest) then some i
    else firstIdxGo p (i + 1) rest

/-- First index at which the pattern occurs (JavaScript `s.indexOf(p)`,
with `none` for `-1`). -/
def firstIdx {α : Type} [DecidableEq α] (p s : List α) : Option Nat :=
  firstIdxGo p 0 s

/-! ## Encodings of JavaScript strings

A JavaScript string is a sequence of UTF-16 code units; we model well-formed
strings (no lone surrogates) as lists of Unicode scalar values.
`codeUnits` recovers the UTF-16 code-unit sequence, `jsLen` is the
JavaScript `.length`, `encB` is `Buffer.from(s, 'binary')` (one byte per
code unit, low 8 bits) and `encU` is `Buffer.from(s, 'utf8')`. -/

/-- Number of UTF-16 code units of one scalar value. -/
def u16len (c : Char) : Nat := if c.toNat < 0x10000 then 1 else 2

/-- UTF-16 code units of one scalar value. -/
def u16units (c : Char) : List Nat :=
  if c.toNat < 0x10000 then [c.toNat]
  else [0xD800 + (c.toNat - 0x10000) / 0x400, 0xDC00 + (c.toNat - 0x10000) % 0x400]

/-- UTF-16 code-unit sequence of a string. -/
def codeUnits (s : Str) : List Nat := (s.map u16units).join

/-- JavaScript `s.length` (UTF-16 code-unit count). -/
def jsLen (s : Str) : Nat := (codeUnits s).length

/-- `Buffer.from(s, 'binary')`: one byte per UTF-16 code unit (low 8 bits). -/
def encB (s : Str) : List Nat := (codeUnits s).map (· % 256)

/-- UTF-8 bytes of one scalar value. -/
def utf8Ch (c : Char) : List Nat :=
  let n := c.toNat
  if n < 0x80 then [n]
  else if n < 0x800 then [0xC0 + n / 0x40, 0x80 + n % 0x40]
  else if n < 0x10000 then
    [0xE0 + n / 0x1000, 0x80 + (n / 0x40) % 0x40, 0x80 + n % 0x40]
  else
    [0xF0 + n / 0x40000, 0x80 + (n / 0x1000) % 0x40, 0x80 + (n / 0x40) % 0x40,
      0x80 + n % 0x40]

/-- `Buffer.from(s, 'utf8')`. -/
def encU (s : Str) : List Nat := (s.map utf8Ch).join

/-- `Buffer.byteLength(s, 'utf8')`. -/
def utf8Len (s : Str) : Nat := (encU s).length

/-! ## JavaScript numbers

Exact fractions with positive denominator.  (Mathlib's `ℚ` normalises with
`Nat.gcd`, which the kernel cannot evaluate; this representation keeps every
pipeline computation kernel-reducible.  `qval` interprets a `JsNum` in `ℚ`
for the proofs.) -/

def JsNum := {p : Int × Int // 0 < p.2}

instance : DecidableEq JsNum := fun a b =>
  decidable_of_iff (a.val = b.val) Subtype.ext_iff.symm

/-- The integer `n` as a `JsNum`. -/
def jn (n : Int) : JsNum := ⟨(n, 1), one_pos⟩

/-- The fraction `n / d` (for positive literal `d`) as a `JsNum`. -/
def jq (n d : Int) (h : 0 < d := by norm_num) : JsNum := ⟨(n, d), h⟩

def qval (a : JsNum) : ℚ := (a.val.1 : ℚ) / (a.val.2 : ℚ)

def qadd (a b : JsNum) : JsNum :=
  ⟨(a.val.1 * b.val.2 + b.val.1 * a.val.2, a.val.2 * b.val.2), mul_pos a.2 b.2⟩

def qsub (a b : JsNum) : JsNum :=
  ⟨(a.val.1 * b.val.2 - b.val.1 * a.val.2, a.val.2 * b.val.2), mul_pos a.2 b.2⟩

def qmul (a b : JsNum) : JsNum :=
  ⟨(a.val.1 * b.val.1, a.val.2 * b.val.2), mul_pos a.2 b.2⟩

def qneg (a : JsNum) : JsNum := ⟨(-a.val.1, a.val.2), a.2⟩

/-- Division; the `0/0 → 0` fallback is never reached in guarded uses. -/
def qdiv (a b : JsNum) : JsNum :=
  if h : 0 < b.val.1 then ⟨(a.val.1 * b.val.2, a.val.2 * b.val.1), mul_pos a.2 h⟩
  else if h' : b.val.1 < 0 then
    ⟨(-(a.val.1 * b.val.2), a.val.2 * (-b.val.1)), mul_pos a.2 (by omega)⟩
  else jn 0

def qlt (a b : JsNum) : Prop := a.val.1 * b.val.2 < b.val.1 * a.val.2

def qle (a b : JsNum) : Prop := a.val.1 * b.val.2 ≤ b.val.1 * a.val.2

instance (a b : JsNum) : Decidable (qlt a b) := by unfold qlt; infer_instance

instance (a b : JsNum) : Decidable (qle a b) := by unfold qle; infer_instance

/-- `Math.max`. -/
def qmax (a b : JsNum) : JsNum := if qle a b then b else a

/-- `Math.min`. -/
def qmin (a b : JsNum) : JsNum := if qle a b then a else b

/-- `Math.floor` (exact for these fractions). -/
def qfloor (a : JsNum) : Int := a.val.1.fdiv a.val.2

/-- Whether the value is an integer. -/
def qIsInt (a : JsNum) : Prop := a.val.1.fmod a.val.2 = 0

instance (a : JsNum) : Decidable (qIsInt a) := by unfold qIsInt; infer_instance

/-- Whether the value is zero (denominators are positive). -/
def qIsZero (a : JsNum) : Prop := a.val.1 = 0

instance (a : JsNum) : Decidable (qIsZero a) := by unfold qIsZero; infer_instance

/-! ## Number formatting -/

/-- The decimal digit character for `d < 10`. -/
def digitChar (d : Nat) : Char := Char.ofNat (48 + d)

/-- Decimal digits, fuelled so that the definition reduces in the kernel;
`fuel = n + 1` always suffices since the argument shrinks by `/10`. -/
def natStrGo : Nat → Nat → Str
  | 0, _ => []
  | fuel + 1, n =>
    if n < 10 then [digitChar n]
    else natStrGo fuel (n / 10) ++ [digitChar (n % 10)]

/-- Decimal rendering of a natural number (JavaScript `String(n)`). -/
def natStr (n : Nat) : Str := natStrGo (n + 1) n

/-- Decimal rendering of an integer. -/
def intStr (i : Int) : Str :=
  if i < 0 then '-' :: natStr (-i).toNat else natStr i.toNat

/-- Fractional digits of a value in `[0, 1)`, up to `fuel` places.
Models JavaScript number printing for the terminating decimals that the
generator actually produces; the digits depend only on the value, not on
the fraction's representation. -/
def fracDigits : Nat → JsNum → Str
  | 0, _ => []
  | fuel + 1, f =>
    if qIsZero f then []
    else
      let d := (qfloor (qmul f (jn 10))).toNat
      digitChar d :: fracDigits fuel (qsub (qmul f (jn 10)) (jn d))

/-- Decimal rendering of a non-negative value. -/
def numStrNN (p : JsNum) : Str :=
  natStr (qfloor p).toNat ++
    (if qIsInt p then [] else '.' :: fracDigits 20 (qsub p (jn (qfloor p))))

/-- Decimal rendering of a number (JavaScript template interpolation of a
number value).  Exact for the integers and terminating decimals the
generator emits; the claims use it only through its output alphabet and
length. -/
def numStr (q : JsNum) : Str :=
  if qlt q (jn 0) then '-' :: numStrNN (qneg q) else numStrNN q

/-- `String(n).padStart(2, '0')`. -/
def pad2 (n : Nat) : Str := if n < 10 then '0' :: natStr n else natStr n

/-- `s.padStart(10, '0')`. -/
def padTenZeros (s : Str) : Str := List.replicate (10 - s.length) '0' ++ s

/-! ## Newline joining (`Array.prototype.join('\n')`) -/

def joinNL : List Str → Str
  | [] => []
  | [x] => x
  | x :: y :: rest => x ++ Char.ofNat 10 :: joinNL (y :: rest)

/-! ## Whitespace, trimming and splitting -/

/-- JavaScript `\s` (the classes the generator's inputs can contain). -/
def isWs (c : Char) : Bool :=
  c == ' ' || c == Char.ofNat 9 || c == Char.ofNat 10 || c == Char.ofNat 13 ||
    c == Char.ofNat 11 || c == Char.ofNat 12 || c == Char.ofNat 0xA0

/-- JavaScript `s.trim()`. -/
def trim (s : Str) : Str :=
  ((s.dropWhile (fun c => isWs c)).reverse.dropWhile (fun c => isWs c)).reverse

theorem length_dropWhile_le {α : Type} (p : α → Bool) (l : List α) :
    (l.dropWhile p).length ≤ l.length := by
  induction l with
  | nil => simp
  | cons c cs ih =>
    rw [List.dropWhile_cons]
    by_cases h : p c
    · simp only [h, if_true]
      exact le_trans ih (by simp)
    · simp [h]

/-- Fuelled splitter; `fuel = s.length` suffices since each step drops at
least one character. -/
def splitWsGo : Nat → Str → List Str
  | 0, _ => []
  | _, [] => []
  | fuel + 1, c :: cs =>
    if isWs c then splitWsGo fuel cs
    else (c :: cs.takeWhile (fun d => !isWs d)) ::
      splitWsGo fuel (cs.dropWhile (fun d => !isWs d))

/-- `paragraph.trim().split(/\s+/)` on an already-trimmed string: the
maximal whitespace-free runs. -/
def splitWs (s : Str) : List Str := splitWsGo s.length s

/-- Length of the maximal whitespace run at the front. -/
def wsRunLen (s : Str) : Nat := (s.takeWhile (fun c => isWs c)).length

/-- Largest index `k ≤ bound` with `s[k] = '\n'` (the backtracking of the
greedy `\s*` in `/\n\s*\n/`). -/
def findNlDown (s : Str) : Nat → Option Nat
  | 0 => if s.get? 0 = some (Char.ofNat 10) then some 0 else none
  | k + 1 =>
    if s.get? (k + 1) = some (Char.ofNat 10) then some (k + 1) else findNlDown s k

/-- Match of the paragraph separator `/\n\s*\n/` at the head of `s`; returns
the remainder after the matched separator. -/
def sepMatch : Str → Option Str
  | [] => none
  | c :: rest =>
    if c = Char.ofNat 10 then
      match findNlDown rest (wsRunLen rest) with
      | some k => some (rest.drop (k + 1))
      | none => none
    else none

theorem sepMatch_length {s rem : Str} (h : sepMatch s = some rem) :
    rem.length < s.length := by
  cases s with
  | nil => simp [sepMatch] at h
  | cons c rest =>
    simp only [sepMatch] at h
    by_cases hc : c = Char.ofNat 10
    · simp only [hc, if_true] at h
      cases hk : findNlDown rest (wsRunLen rest) with
      | none => rw [hk] at h; cases h
      | some k =>
        rw [hk] at h
        cases h
        simp only [List.length_drop, List.length_cons]
        omega
    · simp [hc] at h

/-- `text.split(/\n\s*\n/)`: scan for separator matches, accumulating the
current piece (in reverse).  Fuelled; `fuel = s.length` suffices since every
step consumes at least one character. -/
def splitParasGo : Nat → Str → Str → List Str
  | 0, cur, _ => [cur.reverse]
  | _, cur, [] => [cur.reverse]
  | fuel + 1, cur, c :: rest =>
    match sepMatch (c :: rest) with
    | some rem => cur.reverse :: splitParasGo fuel [] rem
    | none => splitParasGo fuel (c :: cur) rest

def splitParas (s : Str) : List Str := splitParasGo s.length [] s

/-! ## Code-unit substrings

`s.substring(0, m)` / `s.substring(m)` count UTF-16 code units.  A JavaScript
boundary that splits a surrogate pair produces lone surrogates, which the
scalar-value model cannot represent; these functions place the whole
straddling character in neither/the right part.  All inputs the claims
evaluate are BMP text, where the two semantics coincide. -/

def takeUnits : Nat → Str → Str
  | _, [] => []
  | m, c :: cs => if u16len c ≤ m then c :: takeUnits (m - u16len c) cs else []

def dropUnits : Nat → Str → Str
  | _, [] => []
  | m, c :: cs =>
    if m = 0 then c :: cs
    else if u16len c ≤ m then dropUnits (m - u16len c) cs else cs

theorem dropUnits_length_le (m : Nat) (s : Str) : (dropUnits m s).length ≤ s.length := by
  induction s generalizing m with
  | nil => simp [dropUnits]
  | cons c cs ih =>
    simp only [dropUnits]
    by_cases h0 : m = 0
    · simp [h0]
    · simp only [h0, if_false]
      by_cases h1 : u16len c ≤ m
      · simp only [h1, if_true]
        exact le_trans (ih _) (by simp)
      · simp [h1]

/-- Fuelled body of the hard-split loop; `fuel = s.length` suffices for
`m ≥ 1` since each step drops at least one character. -/
def chunkWordGo (m : Nat) : Nat → Str → List Str
  | 0, _ => []
  | _, [] => []
  | fuel + 1, c :: cs =>
    if m = 0 then []
    else takeUnits m (c :: cs) :: chunkWordGo m fuel (dropUnits m (c :: cs))

/-- The hard-split loop
`for (let i = 0; i < word.length; i += maxCharsPerLine) push(word.substring(i, i + maxCharsPerLine))`.
For `m = 0` the source loops forever (no clamping — see the C4 theorems,
which model the raw loop by `loopIdx`); this total model returns `[]` there
and is faithful for `m ≥ 1`, the only region any other theorem uses. -/
def chunkWord (m : Nat) (s : Str) : List Str := chunkWordGo m s.length s

/-- The loop counter of a JavaScript `for (let i = 0; …; i += step)` loop:
`loopIdx step n` is the value of `i` after `n` iterations. -/
def loopIdx (step : Int) : Nat → Int
  | 0 => 0
  | n + 1 => loopIdx step n + step

/-! ## PDF string escaping -/

/-- Per-character image of the multi-page `_escapeString` replacement chain
(`\ → \\`, `( → \(`, `) → \)`, CR → `\r`, LF → `\n`, TAB → `\t`).  The
sequential `String.replace` calls compose to this character map because the
later replacements never match characters introduced by earlier ones. -/
def escCharMP (c : Char) : Str :=
  if c = '\\' then ['\\', '\\']
  else if c = '(' then ['\\', '(']
  else if c = ')' then ['\\', ')']
  else if c = Char.ofNat 13 then ['\\', 'r']
  else if c = Char.ofNat 10 then ['\\', 'n']
  else if c = Char.ofNat 9 then ['\\', 't']
  else [c]

def escRawMP (s : Str) : Str := (s.map escCharMP).join

/-- The multi-page `_escapeString`: escape, then `.substring(0, 1000)`. -/
def escapeString (s : Str) : Str := takeUnits 1000 (escRawMP s)

/-- Per-character image of the single-stream `_escapePDFString` chain
(`\ → \\`, `( → \(`, `) → \)`, CR/LF/TAB → single space). -/
def escCharSS (c : Char) : Str :=
  if c = '\\' then ['\\', '\\']
  else if c = '(' then ['\\', '(']
  else if c = ')' then ['\\', ')']
  else if c = Char.ofNat 13 ∨ c = Char.ofNat 10 ∨ c = Char.ofNat 9 then [' ']
  else [c]

def escapePDFString (s : Str) : Str := (s.map escCharSS).join

/-- The character named by the second half of a two-character escape. -/
def unescChar2 (x : Char) : Char :=
  if x = '\\' then '\\'
  else if x = '(' then '('
  else if x = ')' then ')'
  else if x = 'r' then Char.ofNat 13
  else if x = 'n' then Char.ofNat 10
  else if x = 't' then Char.ofNat 9
  else x

/-- Decoder reversing the documented multi-page escape rule: a backslash
starts a two-character escape, everything else stands for itself. -/
def unescMP : Str → Str
  | [] => []
  | c :: rest =>
    if c = '\\' then
      match rest with
      | [] => [c]
      | x :: rest2 => unescChar2 x :: unescMP rest2
    else c :: unescMP rest

/-- Decoder reversing the documented single-stream escape rule (no escape
sequences exist for CR/LF/TAB there; they were collapsed to spaces). -/
def unescSS : Str → Str
  | [] => []
  | c :: rest =>
    if c = '\\' then
      match rest with
      | [] => [c]
      | x :: rest2 => x :: unescSS rest2
    else c :: unescSS rest

/-- The documented single-stream CR/LF/TAB policy: those characters become
single spaces. -/
def wsToSpace (c : Char) : Char :=
  if c = Char.ofNat 13 ∨ c = Char.ofNat 10 ∨ c = Char.ofNat 9 then ' ' else c

/-! ## Colour conversion (`_hexToRgb`) -/

def isHexDigit (c : Char) : Bool :=
  (48 ≤ c.toNat && c.toNat ≤ 57) || (97 ≤ c.toNat && c.toNat ≤ 102) ||
    (65 ≤ c.toNat && c.toNat ≤ 70)

def hexVal (c : Char) : Nat :=
  if c.toNat ≤ 57 then c.toNat - 48
  else if c.toNat ≤ 70 then c.toNat - 55
  else c.toNat - 87

/-- The optional leading `#` of the anchored regex. -/
def stripHash (s : Str) : Str :=
  match s with
  | [] => []
  | c :: rest => if c = '#' then rest else c :: rest

/-- The `([a-f\d]{2})([a-f\d]{2})([a-f\d]{2})$` part of the regex: exactly
six hex digits, yielding the three `parseInt(pair, 16)` channel values. -/
def hexCore : Str → Option (Nat × Nat × Nat)
  | [a, b, c, d, e, f] =>
    if isHexDigit a && isHexDigit b && isHexDigit c && isHexDigit d &&
        isHexDigit e && isHexDigit f then
      some (hexVal a * 16 + hexVal b, hexVal c * 16 + hexVal d,
        hexVal e * 16 + hexVal f)
    else none
  | _ => none

/-- The anchored regex `/^#?([a-f\d]{2})([a-f\d]{2})([a-f\d]{2})$/i`. -/
def matchHex6 (s : Str) : Option (Nat × Nat × Nat) := hexCore (stripHash s)

/-- The short-hex expansion applied to any 4-unit input. -/
def expand4 (hex : Str) : Str :=
  match hex with
  | [_, h1, h2, h3] => '#' :: [h1, h1, h2, h2, h3, h3]
  | other => other

/-- `(n / 255).toFixed(3)` for `0 ≤ n ≤ 255`: round `1000·n/255` to the
nearest integer (no representable tie ever occurs) and print with three
decimals. -/
def fixed3Of255 (n : Nat) : Str :=
  let m := (2000 * n + 255) / 510
  natStr (m / 1000) ++ '.' :: (List.replicate (3 - (natStr (m % 1000)).length) '0' ++ natStr (m % 1000))

/-- `_hexToRgb` (identical in both source variants): expand a 4-unit short
form, run the anchored 6-digit regex, fall back to black. -/
def hexToRgb (hex : Str) : Str × Str × Str :=
  match matchHex6 (expand4 hex) with
  | none => (str "0.000", str "0.000", str "0.000")
  | some (r, g, b) => (fixed3Of255 r, fixed3Of255 g, fixed3Of255 b)

/-- Modelled from the spec wording of claim C10 (not from the code): "an
optional `#` followed by exactly six hexadecimal digits". -/
def hexDigits6 (l : Str) : Prop := l.length = 6 ∧ ∀ c ∈ l, isHexDigit c

/-- Spec-side match predicate for claim C10. -/
def specHexMatch (s : Str) : Prop :=
  (∃ core, s = '#' :: core ∧ hexDigits6 core) ∨ hexDigits6 s

/-! ## Single-stream variant (`_generateStablePDF`, v2.1.0 code) -/

structure SSMargin where
  top : JsNum
  right : JsNum
  bottom : JsNum
  left : JsNum

structure SSOptions where
  pageWidth : JsNum
  pageHeight : JsNum
  margin : SSMargin

/-- One extracted content element (`type: 'line'` or a text element). -/
inductive SSItem
  | rule (marginTop marginBottom : JsNum)
  | text (text : Str) (heading : Bool) (fontSize : JsNum) (color : Str)
      (marginTop marginBottom : JsNum)

/-- JavaScript `x || d` for numbers: `0` is falsy. -/
def qOr (q d : JsNum) : JsNum := if qIsZero q then d else q

/-- One operator block pushed by `_generateContentStream`: either the
`q … m l S Q` horizontal-rule block or a `BT … ET` text block. -/
inductive SSOp
  | hr (x1 x2 y : JsNum)
  | txt (bold : Bool) (fontSize : JsNum) (rgb : Str × Str × Str) (x y : JsNum)
      (text : Str)
deriving DecidableEq

/-- The lines the source pushes for one operator block. -/
def renderOp : SSOp → List Str
  | .hr x1 x2 y =>
    [str "q", str "0.7 0.7 0.7 RG", str "1 w",
      numStr x1 ++ ' ' :: numStr y ++ str " m",
      numStr x2 ++ ' ' :: numStr y ++ str " l",
      str "S", str "Q"]
  | .txt bold fs rgb x y t =>
    [str "BT",
      '/' :: (if bold then str "F2" else str "F1") ++ ' ' :: numStr fs ++ str " Tf",
      rgb.1 ++ ' ' :: rgb.2.1 ++ ' ' :: rgb.2.2 ++ str " rg",
      numStr x ++ ' ' :: numStr y ++ str " Td",
      '(' :: escapePDFString t ++ str ") Tj",
      str "ET"]

/-- The `_generateContentStream` loop: `currentY` threads through; a rule is
always emitted; a text item first applies its top margin, clamps the font
size to `[8, 24]`, and `break`s out of the whole loop if the line would
cross the bottom margin. -/
def genCSGo (o : SSOptions) : List SSItem → JsNum → List SSOp
  | [], _ => []
  | item :: rest, currentY =>
    match item with
    | .rule mt mb =>
      let lineY := qsub currentY (qOr mt (jn 8))
      .hr o.margin.left (qsub o.pageWidth o.margin.right) lineY ::
        genCSGo o rest (qsub lineY (qOr mb (jn 8)))
    | .text t heading fs color mt mb =>
      if t ≠ [] ∧ trim t ≠ [] then
        let y1 := if qlt (jn 0) mt then qsub currentY mt else currentY
        let fontSize := qmax (jn 8) (qmin (jn 24) (qOr fs (jn 12)))
        let lineHeight := qmul fontSize (jq 3 2)
        if qlt (qsub y1 lineHeight) o.margin.bottom then []
        else
          .txt heading fontSize
              (hexToRgb (if color = [] then str "#000000" else color))
              o.margin.left (qsub y1 fontSize) t ::
            genCSGo o rest
              (qsub (qsub y1 lineHeight) (if qlt (jn 0) mb then mb else jn 0))
      else genCSGo o rest currentY

def generateContentStream (content : List SSItem) (o : SSOptions) : List SSOp :=
  genCSGo o content (qsub o.pageHeight o.margin.top)

/-- `stream.join('\n')`. -/
def csText (ops : List SSOp) : Str := joinNL (ops.map renderOp).join

/-- The `pdfContent` array of `_generateStablePDF` up to (excluding) the
`xref` keyword. -/
def ssPre (cs : Str) (o : SSOptions) : List Str :=
  [str "%PDF-1.4", [],
    str "1 0 obj", str "<<", str "/Type /Catalog", str "/Pages 2 0 R",
    str ">>", str "endobj", [],
    str "2 0 obj", str "<<", str "/Type /Pages", str "/Kids [3 0 R]",
    str "/Count 1", str ">>", str "endobj", [],
    str "3 0 obj", str "<<", str "/Type /Page", str "/Parent 2 0 R",
    str "/MediaBox [0 0 " ++ numStr o.pageWidth ++ ' ' :: numStr o.pageHeight ++ [']'],
    str "/Resources <<", str "/Font <<",
    str "/F1 << /Type /Font /Subtype /Type1 /BaseFont /Helvetica >>",
    str "/F2 << /Type /Font /Subtype /Type1 /BaseFont /Helvetica-Bold >>",
    str ">>", str ">>", str "/Contents 4 0 R", str ">>", str "endobj", [],
    str "4 0 obj", str "<<", str "/Length " ++ natStr (utf8Len cs), str ">>",
    str "stream", cs, str "endstream", str "endobj", []]

/-- `Buffer.byteLength(pdfContent.join('\n') + '\n', 'utf8')`, taken while
`pdfContent` still ends just before `xref`. -/
def ssXrefPos (cs : Str) (o : SSOptions) : Nat := utf8Len (joinNL (ssPre cs o)) + 1

/-- The array state in which the source runs `findIndex`; the offset-entry
lines appended while the loop runs are all-digit lines that can never equal
an `i 0 obj` probe, so searching this fixed array is equivalent. -/
def ssBase (cs : Str) (o : SSOptions) : List Str :=
  ssPre cs o ++ [str "xref", str "0 5", str "0000000000 65535 f "]

/-- `Array.prototype.findIndex`. -/
def findIndexJs {α : Type} (p : α → Bool) : List α → Option Nat
  | [] => none
  | e :: rest => if p e then some 0 else (findIndexJs p rest).map (· + 1)

/-- `Σ_{j < idx} Buffer.byteLength(pdfContent[j] + '\n', 'utf8')` — the
inner accumulation loop of the xref-entry pass. -/
def sumNLBytes : List Str → Nat
  | [] => 0
  | e :: t => (utf8Len e + 1) + sumNLBytes t

/-- The xref offset the source records for object `i` (1-based). -/
def ssObjPos (cs : Str) (o : SSOptions) (i : Nat) : Option Nat :=
  (findIndexJs (fun e => e == natStr i ++ str " 0 obj") (ssBase cs o)).map
    (fun idx => sumNLBytes ((ssBase cs o).take idx))

def ssEntryLines (cs : Str) (o : SSOptions) : List Str :=
  ((List.range 4).map (· + 1)).filterMap (fun i =>
    (ssObjPos cs o i).map (fun p => padTenZeros (natStr p) ++ str " 00000 n "))

/-- The final `pdfContent` array. -/
def ssFull (cs : Str) (o : SSOptions) : List Str :=
  ssBase cs o ++ ssEntryLines cs o ++
    [str "trailer", str "<<", str "/Size 5", str "/Root 1 0 R", str ">>",
      str "startxref", natStr (ssXrefPos cs o), str "%%EOF"]

/-- `_generateStablePDF`: `Buffer.from(pdfContent.join('\n'), 'utf8')`. -/
def generateStablePDF (content : List SSItem) (o : SSOptions) : List Nat :=
  encU (joinNL (ssFull (csText (generateContentStream content o)) o))

/-! ## Multi-page variant (v1.0.0 code) -/

structure Margins where
  top : JsNum
  right : JsNum
  bottom : JsNum
  left : JsNum

structure MPOptions where
  title : Str
  fontSize : JsNum
  lineHeight : JsNum
  margin : Margins
  pageWidth : JsNum
  pageHeight : JsNum

/-- `_validateNumber`: `null`/`undefined`/`NaN` (modelled as `none`) fall
back to the default; otherwise clamp into `[mn, mx]`. -/
def validateNumber (value : Option JsNum) (dflt mn mx : JsNum) : JsNum :=
  match value with
  | none => dflt
  | some v => qmax mn (qmin mx v)

/-- The `margin` option: a number, an object of per-side numbers, or
anything else. -/
inductive MarginOpt
  | undef
  | num (q : JsNum)
  | obj (top right bottom left : Option JsNum)

/-- `DEFAULT_MARGIN`. -/
def defaultMargin : JsNum := jn 50

/-- `_parseMargin`. -/
def parseMargin : MarginOpt → Margins
  | .num q =>
    let s := qmax (jn 0) (qmin (jn 200) q)
    ⟨s, s, s, s⟩
  | .obj t r b l =>
    ⟨validateNumber t defaultMargin (jn 0) (jn 200),
      validateNumber r defaultMargin (jn 0) (jn 200),
      validateNumber b defaultMargin (jn 0) (jn 200),
      validateNumber l defaultMargin (jn 0) (jn 200)⟩
  | .undef => ⟨defaultMargin, defaultMargin, defaultMargin, defaultMargin⟩

/-- Characters removed by `_sanitizeString` (the union of the two control
classes `[\x00-\x1F]` and `[\x7F-\x9F]`). -/
def isCtl (c : Char) : Bool := c.toNat ≤ 0x1F || (0x7F ≤ c.toNat && c.toNat ≤ 0x9F)

/-- `_sanitizeString`: non-strings (modelled as `none`) fall back to the
default; control characters removed, trimmed, cut to 255 units. -/
def sanitizeString (input : Option Str) (dflt : Str) : Str :=
  match input with
  | none => dflt
  | some s => takeUnits 255 (trim (s.filter (fun c => !isCtl c)))

/-- The caller-supplied options object of a generation call. -/
structure RawOptions where
  title : Option Str
  fontSize : Option JsNum
  lineHeight : Option JsNum
  margin : MarginOpt
  pageWidth : Option JsNum
  pageHeight : Option JsNum

/-- The instance configuration defaults (`this.config` built with no
constructor options): A4 geometry, default typography. -/
structure GenConfig where
  fontSize : JsNum
  lineHeight : JsNum
  pageWidth : JsNum
  pageHeight : JsNum
  maxContentSize : Nat

def cfgDefaults : GenConfig :=
  ⟨jn 12, jn 15, jn 595, jn 842, 50 * 1024 * 1024⟩

/-- `_sanitizeOptions`. -/
def sanitizeOptions (o : RawOptions) (cfg : GenConfig) : MPOptions :=
  { title := sanitizeString o.title (str "Document")
    fontSize := validateNumber o.fontSize cfg.fontSize (jn 6) (jn 72)
    lineHeight := validateNumber o.lineHeight cfg.lineHeight (jn 8) (jn 100)
    margin := parseMargin o.margin
    pageWidth := validateNumber o.pageWidth cfg.pageWidth (jn 200) (jn 2000)
    pageHeight := validateNumber o.pageHeight cfg.pageHeight (jn 200) (jn 3000) }

/-- `maxCharsPerLine = Math.floor(maxWidth / (fontSize * 0.6))` (the
average-character-width approximation; `fontSize ≥ 6` after sanitisation so
the division is proper).  Modelled over `ℚ`; the sign and integer value
agree with the double computation for the inputs used here. -/
def computedMcpl (o : MPOptions) : Int :=
  qfloor (qdiv (qsub (qsub o.pageWidth o.margin.left) o.margin.right)
    (qmul o.fontSize (jq 3 5)))

/-- `linesPerPage = Math.floor(effectiveHeight / lineHeight)`. -/
def computedLpp (o : MPOptions) : Int :=
  qfloor (qdiv (qsub (qsub o.pageHeight o.margin.top) o.margin.bottom) o.lineHeight)

/-- One step of the `words.forEach` greedy-wrap loop of
`_processTextToLines`; the state is (lines so far, currentLine). -/
def wrapStep (mcpl : Nat) (lines : List Str) (cur : Str) (word : Str) :
    List Str × Str :=
  if jsLen (cur ++ (if cur ≠ [] then [' '] else []) ++ word) ≤ mcpl then
    (lines, cur ++ (if cur ≠ [] then [' '] else []) ++ word)
  else
    let lines1 := if cur ≠ [] then lines ++ [cur] else lines
    if mcpl < jsLen word then (lines1 ++ chunkWord mcpl word, [])
    else (lines1, word)

/-- The lines produced for one paragraph. -/
def paraLines (mcpl : Nat) (p : Str) : List Str :=
  let words := splitWs (trim p)
  let st := words.foldl (fun st w => wrapStep mcpl st.1 st.2 w) ([], [])
  if st.2 ≠ [] then st.1 ++ [st.2] else st.1

/-- The `index > 0 → push('')` blank-line separation between paragraphs. -/
def blankJoin : List (List Str) → List Str
  | [] => []
  | [x] => x
  | x :: y :: rest => x ++ ([] : Str) :: blankJoin (y :: rest)

/-- `_processTextToLines`.  Uses `(computedMcpl o).toNat`: faithful whenever
the computed limit is ≥ 1; for a zero or negative limit the source's
hard-split loop never terminates (claim C4). -/
def processTextToLines (text : Str) (o : MPOptions) : List Str :=
  let mcpl := (computedMcpl o).toNat
  let paragraphs := (splitParas text).filter (fun p => 0 < (trim p).length)
  blankJoin (paragraphs.map (paraLines mcpl))

/-- The `content.push` lines of `_createContentStream` after the `BT`/font
prologue: skip once `yPosition` is below the bottom margin, absolute `Td`
for the first emitted line, relative `0 -lineHeight Td` afterwards. -/
def ccsGo (o : MPOptions) : List Str → JsNum → Bool → List Str
  | [], _, _ => []
  | line :: rest, y, first =>
    if qlt y o.margin.bottom then ccsGo o rest y first
    else
      (if first then numStr o.margin.left ++ ' ' :: numStr y ++ str " Td"
       else str "0 -" ++ numStr o.lineHeight ++ str " Td") ::
      ('(' :: escapeString line ++ str ") Tj") ::
      ccsGo o rest (qsub y o.lineHeight) false

/-- `_createContentStream`. -/
def createContentStream (lines : List Str) (o : MPOptions) : Str :=
  joinNL ([str "BT", str "/F1 " ++ numStr o.fontSize ++ str " Tf"] ++
    ccsGo o lines (qsub (qsub o.pageHeight o.margin.top) o.fontSize) true ++
    [str "ET"])

/-- Fuelled body of the pagination loop. -/
def chunkListGo {α : Type} (m : Nat) : Nat → List α → List (List α)
  | 0, _ => []
  | _, [] => []
  | fuel + 1, x :: xs =>
    if m = 0 then []
    else (x :: xs).take m :: chunkListGo m fuel ((x :: xs).drop m)

/-- Array slicing `lines.slice(i, i + m)` as done by the pagination loop;
for `m = 0` the source loop never terminates (claim C4), this total model
returns `[]` there; faithful for `m ≥ 1`. -/
def chunkList {α : Type} (m : Nat) (s : List α) : List (List α) :=
  chunkListGo m s.length s

/-- Page splitting incl. the `pages.push([''])` fallback. -/
def pagesOf (lines : List Str) (o : MPOptions) : List (List Str) :=
  let lpp := (computedLpp o).toNat
  let ps := chunkList lpp lines
  if ps.isEmpty then [[([] : Str)]] else ps

structure PdfObj where
  id : Nat
  content : Str
deriving DecidableEq

/-- Space-joined `pages.map((_, index) => `${3 + index * 2} 0 R`)`. -/
def joinSp : List Str → Str
  | [] => []
  | [x] => x
  | x :: y :: rest => x ++ ' ' :: joinSp (y :: rest)

def pageRefsStr (count : Nat) : Str :=
  joinSp ((List.range count).map (fun i => natStr (3 + i * 2) ++ str " 0 R"))

def catalogObj : PdfObj := ⟨1, str "<<\n/Type /Catalog\n/Pages 2 0 R\n>>"⟩

def pagesObj (count : Nat) : PdfObj :=
  ⟨2, str "<<\n/Type /Pages\n/Kids [" ++ pageRefsStr count ++ str "]\n/Count " ++
    natStr count ++ str "\n>>"⟩

/-- The body of a Page object: `/F1 fontRef 0 R` is whatever number the
source computed for the shared font reference. -/
def pageObjContent (o : MPOptions) (fontRef contentId : Nat) : Str :=
  str "<<\n/Type /Page\n/Parent 2 0 R\n/MediaBox [0 0 " ++
    numStr o.pageWidth ++ ' ' :: numStr o.pageHeight ++
    str "]\n/Resources <<\n  /Font <<\n    /F1 " ++ natStr fontRef ++
    str " 0 R\n  >>\n>>\n/Contents " ++ natStr contentId ++ str " 0 R\n>>"

/-- The body of a content-stream object: `/Length` is the JavaScript string
length (`.length`) of the stream. -/
def contentObjContent (cs : Str) : Str :=
  str "<<\n/Length " ++ natStr (jsLen cs) ++ str "\n>>\nstream\n" ++ cs ++
    str "\nendstream"

/-- One step of the `pages.forEach` loop.  At step `k` the accumulated list
has the source's `objects.length`, so the `/F1` reference is computed as
`objects.length + pages.length * 2 + 1` exactly as in the source. -/
def mpPageStep (pages : List (List Str)) (o : MPOptions)
    (st : List PdfObj × Nat) (pageLines : List Str) : List PdfObj × Nat :=
  (st.1 ++
    [⟨st.2, pageObjContent o (st.1.length + pages.length * 2 + 1) (st.2 + 1)⟩,
      ⟨st.2 + 1, contentObjContent (createContentStream pageLines o)⟩],
    st.2 + 2)

/-- The objects accumulated by the `pages.forEach` loop (catalog and Pages
object already pushed). -/
def mpPageObjs (pages : List (List Str)) (o : MPOptions) : List PdfObj :=
  (pages.foldl (mpPageStep pages o) ([catalogObj, pagesObj pages.length], 3)).1

def fontObj (pageCount : Nat) : PdfObj :=
  ⟨3 + 2 * pageCount, str "<<\n/Type /Font\n/Subtype /Type1\n/BaseFont /Helvetica\n>>"⟩

/-- The wall-clock fields read from `new Date()`; `month` is already the
1-based `getMonth() + 1`. -/
structure DateParts where
  year : Nat
  month : Nat
  day : Nat
  hour : Nat
  minute : Nat
  second : Nat

def pdfDate (d : DateParts) : Str :=
  str "D:" ++ natStr d.year ++ pad2 d.month ++ pad2 d.day ++ pad2 d.hour ++
    pad2 d.minute ++ pad2 d.second

def infoObj (pageCount : Nat) (title : Str) (d : DateParts) : PdfObj :=
  ⟨4 + 2 * pageCount, str "<<\n/Title (" ++ escapeString title ++
    str ")\n/Producer (Enhanced PDF Generator v1.0.0)\n/Creator (Enhanced PDF Generator)\n/CreationDate (" ++
    pdfDate d ++ str ")\n/ModDate (" ++ pdfDate d ++ str ")\n>>"⟩

/-- `_createPDFDocument`: object list plus the info object's id as passed
to `_buildPDFFile`. -/
def createPDFDocument (lines : List Str) (title : Str) (o : MPOptions)
    (d : DateParts) : List PdfObj × Nat :=
  let pages := pagesOf lines o
  (mpPageObjs pages o ++ [fontObj pages.length, infoObj pages.length title d],
    4 + 2 * pages.length)

/-- `${obj.id} 0 obj\n${obj.content}\nendobj\n`. -/
def objContent (obj : PdfObj) : Str :=
  natStr obj.id ++ str " 0 obj\n" ++ obj.content ++ str "\nendobj\n"

def mpHeader : List Str := [str "%PDF-1.4", str "%âãÏÓ"]

/-- `Buffer.from(headerContent, 'binary').length` with
`headerContent = lines.join('\n') + '\n'`. -/
def mpHeaderLen : Nat := jsLen (joinNL mpHeader) + 1

/-- The `objectPositions` array and final `currentPosition` (which becomes
`xrefPosition`): positions accumulate `Buffer.from(objContent, 'binary').length`
only — the `'\n'` separators that `join('\n')` later inserts are not
counted. -/
def mpPositions (objs : List PdfObj) : List Nat :=
  (objs.foldl (fun (st : List Nat × Nat) obj =>
    (st.1 ++ [st.2], st.2 + jsLen (objContent obj))) ([], mpHeaderLen)).1

def mpXrefPos (objs : List PdfObj) : Nat :=
  (objs.foldl (fun (st : List Nat × Nat) obj =>
    (st.1 ++ [st.2], st.2 + jsLen (objContent obj))) ([], mpHeaderLen)).2

/-- The final `lines` array of `_buildPDFFile`. -/
def mpLines (objs : List PdfObj) (infoObjectId : Nat) : List Str :=
  mpHeader ++ objs.map objContent ++
    [str "xref", str "0 " ++ natStr (objs.length + 1), str "0000000000 65535 f "] ++
    (mpPositions objs).map (fun p => padTenZeros (natStr p) ++ str " 00000 n ") ++
    [str "trailer", str "<<", str "/Size " ++ natStr (objs.length + 1),
      str "/Root 1 0 R", str "/Info " ++ natStr infoObjectId ++ str " 0 R",
      str ">>", str "startxref", natStr (mpXrefPos objs), str "%%EOF"]

/-- `_buildPDFFile`: `Buffer.from(lines.join('\n'), 'binary')`. -/
def buildPDFFile (objs : List PdfObj) (infoObjectId : Nat) : List Nat :=
  encB (joinNL (mpLines objs infoObjectId))

/-- Byte pattern of an ASCII literal under the `'binary'` reading
`pdfBuffer.toString('binary')` used by the validator. -/
def bts (s : String) : List Nat := encB s.data

/-- `_validatePDFStructure`. -/
def validatePDFStructure (buf : List Nat) : Bool :=
  decide (100 ≤ buf.length) &&
  decide (sw (bts "%PDF-") buf) &&
  decide (hasSeg (bts "%%EOF") buf) &&
  decide (hasSeg (bts "/Type /Catalog") buf) &&
  decide (hasSeg (bts "/Type /Pages") buf) &&
  decide (hasSeg (bts "/Type /Page") buf) &&
  decide (hasSeg (bts "xref") buf) &&
  decide (hasSeg (bts "trailer") buf) &&
  decide (hasSeg (bts "startxref") buf) &&
  (match firstIdx (bts "xref") buf, firstIdx (bts "trailer") buf with
    | some x, some t => decide (x < t)
    | _, _ => false)

inductive GenError
  | invalidInput
  | alreadyProcessing
deriving DecidableEq

/-- `generatePDFFromText`: `_validateInput` (null / empty / oversized),
`_checkProcessingState`, then the sanitise → wrap → assemble → serialize
pipeline.  `none` models a null/undefined (or non-string) argument. -/
def generatePDFFromText (cfg : GenConfig) (isProcessing : Bool)
    (text : Option Str) (opts : RawOptions) (d : DateParts) :
    Except GenError (List Nat) :=
  match text with
  | none => .error .invalidInput
  | some t =>
    if jsLen t = 0 then .error .invalidInput
    else if cfg.maxContentSize < jsLen t then .error .invalidInput
    else if isProcessing then .error .alreadyProcessing
    else
      let o := sanitizeOptions opts cfg
      let lines := processTextToLines t o
      let title := if o.title = [] then str "Text Document" else o.title
      let doc := createPDFDocument lines title o d
      .ok (buildPDFFile doc.1 doc.2)

/-- `s` occurs as a contiguous substring of `t`. -/
def partOf (s t : Str) : Prop := ∃ u v, t = u ++ s ++ v

/-- The key safety invariant of the validator's ordering check: the bytes of
`trailer` occur nowhere in the binary encoding of the PDF-escaped image of
`l`. -/
def escSafe (l : Str) : Prop := noSeg (bts "trailer") (encB (escRawMP l))

instance (l : Str) : Decidable (escSafe l) := by unfold escSafe; infer_instance

/-- First byte (if any) is not a byte of `trailer`; the reusable boundary
condition for glueing byte strings without creating an occurrence. -/
def hdOk (y : List Nat) : Prop := ∀ b, y.head? = some b → b ∉ bts "trailer"

/-! ## General lemmas -/

theorem sw_append {α : Type} (p t : List α) : sw p (p ++ t) := ⟨t, rfl⟩

theorem sw_nil_iff {α : Type} (p : List α) : sw p ([] : List α) ↔ p = [] := by
  constructor
  · rintro ⟨t, h⟩
    rcases List.append_eq_nil.mp h.symm with ⟨h1, _⟩
    exact h1
  · rintro rfl; exact ⟨[], rfl⟩

theorem segAt_def {α : Type} (p s : List α) (i : Nat) :
    segAt p s i ↔ ∃ t, s.drop i = p ++ t := Iff.rfl

theorem hasSeg_of_segAt {α : Type} {p s : List α} {i : Nat} (h : segAt p s i) :
    hasSeg p s := ⟨i, h⟩

/-- An occurrence in a suffix shifts to an occurrence in the whole list. -/
theorem segAt_append_left {α : Type} (p x y : List α) (i : Nat) (h : segAt p y i) :
    segAt p (x ++ y) (x.length + i) := by
  rcases h with ⟨t, ht⟩
  refine ⟨t, ?_⟩
  rw [List.drop_append_eq_append_drop]
  simp [ht]

theorem hasSeg_append_right {α : Type} (p x y : List α) (h : hasSeg p y) :
    hasSeg p (x ++ y) := by
  rcases h with ⟨i, hi⟩
  exact ⟨x.length + i, segAt_append_left p x y i hi⟩

theorem hasSeg_append_left {α : Type} (p x y : List α) (h : hasSeg p x) :
    hasSeg p (x ++ y) := by
  rcases h with ⟨i, t, ht⟩
  rcases le_or_lt i x.length with hle | hlt
  · refine ⟨i, t ++ y, ?_⟩
    rw [List.drop_append_eq_append_drop, ht, Nat.sub_eq_zero_of_le hle]
    simp
  · have hnil : x.drop i = [] := List.drop_eq_nil_of_le (le_of_lt hlt)
    rw [hnil] at ht
    rcases List.append_eq_nil.mp ht.symm with ⟨rfl, rfl⟩
    exact ⟨0, (x ++ y).drop 0, by simp⟩

theorem hasSeg_iff_parts {α : Type} (p s : List α) :
    hasSeg p s ↔ ∃ pre post, s = pre ++ p ++ post := by
  constructor
  · rintro ⟨i, t, ht⟩
    refine ⟨s.take i, t, ?_⟩
    conv_lhs => rw [← List.take_append_drop i s]
    rw [ht, List.append_assoc]
  · rintro ⟨pre, post, rfl⟩
    refine ⟨pre.length, post, ?_⟩
    rw [List.append_assoc, List.drop_left]

theorem hasSeg_trans {α : Type} {x y z : List α} (h1 : hasSeg x y) (h2 : hasSeg y z) :
    hasSeg x z := by
  rcases (hasSeg_iff_parts x y).mp h1 with ⟨a, b, hy⟩
  rcases (hasSeg_iff_parts y z).mp h2 with ⟨c, d, hz⟩
  refine (hasSeg_iff_parts x z).mpr ⟨c ++ a, b ++ d, ?_⟩
  rw [hz, hy]
  simp

theorem noSeg_of_hasSeg_trans {α : Type} {p w s : List α}
    (hw : hasSeg w s) (hs : noSeg p s) : noSeg p w :=
  fun h => hs (hasSeg_trans h hw)

/-- Every position covered by an occurrence carries an element of the pattern. -/
theorem segAt_get? {α : Type} {p s : List α} {i : Nat} (h : segAt p s i)
    (j : Nat) (hj : j < p.length) : s.get? (i + j) = p.get? j := by
  rcases h with ⟨t, ht⟩
  have h1 : (s.drop i).get? j = s.get? (i + j) := List.get?_drop s i j
  rw [← h1, ht, List.get?_append hj]

theorem mem_of_seg_cover {α : Type} {p s : List α} {i k : Nat} {b : α}
    (h : segAt p s i) (hik : i ≤ k) (hk : k < i + p.length)
    (hb : s.get? k = some b) : b ∈ p := by
  have hj : k - i < p.length := by omega
  have := segAt_get? h (k - i) hj
  rw [Nat.add_sub_cancel' hik] at this
  rw [hb] at this
  exact List.get?_mem this.symm

/-- If some element of the pattern never occurs in `s`, the pattern does not occur. -/
theorem noSeg_of_not_mem {α : Type} {p s : List α} {b : α}
    (hbp : b ∈ p) (hbs : b ∉ s) : noSeg p s := by
  rintro ⟨i, t, ht⟩
  apply hbs
  have : b ∈ s.drop i := ht ▸ List.mem_append_left t hbp
  exact List.mem_of_mem_drop this

/-- Occurrence in an append splits into: inside the left part, inside the
right part, or straddling the boundary. -/
theorem segAt_append_cases {α : Type} {p x y : List α} {i : Nat}
    (h : segAt p (x ++ y) i) :
    segAt p x i ∨ (x.length ≤ i ∧ segAt p y (i - x.length)) ∨
      (i < x.length ∧ x.length < i + p.length) := by
  rcases le_or_lt x.length i with hxi | hxi
  · right; left
    refine ⟨hxi, ?_⟩
    rcases h with ⟨t, ht⟩
    refine ⟨t, ?_⟩
    rw [List.drop_append_eq_append_drop, List.drop_eq_nil_of_le hxi] at ht
    simpa using ht
  · rcases le_or_lt (i + p.length) x.length with hcov | hcov
    · left
      rcases h with ⟨t, ht⟩
      rw [List.drop_append_eq_append_drop, Nat.sub_eq_zero_of_le (le_of_lt hxi)] at ht
      simp only [List.drop_zero] at ht
      have hlen : p.length ≤ (x.drop i).length := by
        rw [List.length_drop]; omega
      have htake : (x.drop i).take p.length = p := by
        have h2 : ((x.drop i) ++ y).take p.length = p := by
          rw [ht]; simp
        rw [List.take_append_of_le_length hlen] at h2
        exact h2
      refine ⟨(x.drop i).drop p.length, ?_⟩
      conv_lhs => rw [← List.take_append_drop p.length (x.drop i)]
      rw [htake]
    · right; right; exact ⟨hxi, hcov⟩

/-- Workhorse: no occurrence in an append when both parts are clean and the
last element of the left part cannot belong to the pattern. -/
theorem noSeg_append_lastSafe {α : Type} {p x y : List α}
    (hx : noSeg p x) (hy : noSeg p y)
    (hlast : ∀ b, x.getLast? = some b → b ∉ p) : noSeg p (x ++ y) := by
  rintro ⟨i, hocc⟩
  rcases segAt_append_cases hocc with hin | ⟨_, hin⟩ | ⟨h1, h2⟩
  · exact hx ⟨i, hin⟩
  · exact hy ⟨_, hin⟩
  · have hxne : x ≠ [] := by
      intro hnil; rw [hnil] at h1; exact absurd h1 (by simp)
    have hlast' : x.getLast? = some (x.getLast hxne) := List.getLast?_eq_getLast x hxne
    have hget : (x ++ y).get? (x.length - 1) = some (x.getLast hxne) := by
      rw [List.get?_append (by omega)]
      rw [List.getLast_eq_get]
      exact List.get?_eq_get _
    have hmem : x.getLast hxne ∈ p :=
      mem_of_seg_cover hocc (by omega) (by omega) hget
    exact hlast _ hlast' hmem

/-- Workhorse: no occurrence in an append when both parts are clean and the
first element of the right part cannot belong to the pattern. -/
theorem noSeg_append_headSafe {α : Type} {p x y : List α}
    (hx : noSeg p x) (hy : noSeg p y)
    (hhead : ∀ b, y.head? = some b → b ∉ p) : noSeg p (x ++ y) := by
  rintro ⟨i, hocc⟩
  rcases segAt_append_cases hocc with hin | ⟨_, hin⟩ | ⟨h1, h2⟩
  · exact hx ⟨i, hin⟩
  · exact hy ⟨_, hin⟩
  · have hyne : y ≠ [] := by
      intro hnil
      rw [hnil, List.append_nil] at hocc
      exact hx ⟨i, hocc⟩
    rcases List.exists_cons_of_ne_nil hyne with ⟨c, y', rfl⟩
    have hget : (x ++ c :: y').get? x.length = some c := by
      rw [List.get?_append_right (le_refl _)]
      simp
    have hmem : c ∈ p := mem_of_seg_cover hocc (by omega) (by omega) hget
    exact hhead c rfl hmem

/-- Joining two clean lists with a separator element not in the pattern is clean. -/
theorem noSeg_bridge {α : Type} {p x y : List α} {b : α}
    (hx : noSeg p x) (hy : noSeg p y) (hb : b ∉ p) : noSeg p (x ++ b :: y) := by
  have hpne : p ≠ [] := by
    rintro rfl
    exact hx ⟨0, x, by simp⟩
  have h1 : noSeg p (b :: y) := by
    rintro ⟨i, hi⟩
    cases i with
    | zero =>
      rcases hi with ⟨t, ht⟩
      rcases List.exists_cons_of_ne_nil hpne with ⟨q, p', hp⟩
      rw [hp] at ht
      simp only [List.drop_zero, List.cons_append] at ht
      injection ht with hh _
      apply hb
      rw [hp, hh]
      exact List.mem_cons_self _ _
    | succ k => exact hy ⟨k, hi⟩
  exact noSeg_append_headSafe hx h1 (fun c hc hcp => by
    simp at hc; exact hb (hc ▸ hcp))

theorem hasSeg_cons_iff {α : Type} (p : List α) (c : α) (rest : List α) :
    hasSeg p (c :: rest) ↔ sw p (c :: rest) ∨ hasSeg p rest := by
  constructor
  · rintro ⟨i, hi⟩
    cases i with
    | zero => exact Or.inl hi
    | succ k => exact Or.inr ⟨k, hi⟩
  · rintro (h | ⟨i, hi⟩)
    · exact ⟨0, h⟩
    · exact ⟨i + 1, hi⟩

theorem firstIdxGo_none_iff {α : Type} [DecidableEq α] (p : List α) (i : Nat)
    (s : List α) : firstIdxGo p i s = none ↔ noSeg p s := by
  induction s generalizing i with
  | nil =>
    unfold firstIdxGo
    by_cases h : swB p [] = true
    · rw [if_pos h]
      constructor
      · intro hc; cases hc
      · intro hns
        exact absurd ⟨0, (swB_iff p []).mp h⟩ hns
    · rw [if_neg h]
      constructor
      · intro _ hc
        rcases hc with ⟨k, hk⟩
        simp only [segAt, List.drop_nil] at hk
        exact h ((swB_iff p []).mpr hk)
      · intro _; rfl
  | cons b rest ih =>
    unfold firstIdxGo
    by_cases h : swB p (b :: rest) = true
    · rw [if_pos h]
      constructor
      · intro hc; cases hc
      · intro hns
        exact absurd ⟨0, (swB_iff p (b :: rest)).mp h⟩ hns
    · rw [if_neg h]
      rw [ih]
      constructor
      · intro hns hc
        rcases (hasSeg_cons_iff p b rest).mp hc with h' | h'
        · exact h ((swB_iff p (b :: rest)).mpr h')
        · exact hns h'
      · intro hns hc
        exact hns ((hasSeg_cons_iff p b rest).mpr (Or.inr hc))

theorem firstIdx_eq_none_iff {α : Type} [DecidableEq α] (p s : List α) :
    firstIdx p s = none ↔ noSeg p s := firstIdxGo_none_iff p 0 s

theorem firstIdxGo_spec {α : Type} [DecidableEq α] (p : List α) (s : List α)
    (i j : Nat) (h : firstIdxGo p i s = some j) :
    i ≤ j ∧ segAt p s (j - i) ∧ ∀ k, k < j - i → ¬ segAt p s k := by
  induction s generalizing i with
  | nil =>
    unfold firstIdxGo at h
    by_cases hsw : swB p [] = true
    · rw [if_pos hsw] at h
      cases h
      refine ⟨le_rfl, ?_, fun k hk => absurd hk (by omega)⟩
      simpa [segAt] using (swB_iff p []).mp hsw
    · rw [if_neg hsw] at h
      cases h
  | cons b rest ih =>
    unfold firstIdxGo at h
    by_cases hsw : swB p (b :: rest) = true
    · rw [if_pos hsw] at h
      cases h
      refine ⟨le_rfl, ?_, fun k hk => absurd hk (by omega)⟩
      simpa [segAt] using (swB_iff p (b :: rest)).mp hsw
    · rw [if_neg hsw] at h
      rcases ih (i + 1) h with ⟨hle, hocc, hmin⟩
      refine ⟨by omega, ?_, ?_⟩
      · have : j - i = (j - (i + 1)) + 1 := by omega
        rw [this]
        exact hocc
      · intro k hk
        cases k with
        | zero =>
          intro hc
          exact hsw ((swB_iff p (b :: rest)).mpr hc)
        | succ m =>
          have : m < j - (i + 1) := by omega
          exact hmin m this

theorem firstIdx_spec {α : Type} [DecidableEq α] (p s : List α) (i : Nat)
    (h : firstIdx p s = some i) : segAt p s i ∧ ∀ j, j < i → ¬ segAt p s j := by
  rcases firstIdxGo_spec p s 0 i h with ⟨_, hocc, hmin⟩
  simp only [Nat.sub_zero] at hocc hmin
  exact ⟨hocc, hmin⟩

theorem firstIdx_le_of_segAt {α : Type} [DecidableEq α] {p s : List α} {i : Nat}
    (h : segAt p s i) : ∃ j, j ≤ i ∧ firstIdx p s = some j := by
  cases hfi : firstIdx p s with
  | none =>
    exact absurd ⟨i, h⟩ ((firstIdx_eq_none_iff p s).mp hfi)
  | some v =>
    rcases firstIdx_spec p s v hfi with ⟨_, hmin⟩
    refine ⟨v, ?_, rfl⟩
    by_contra hlt
    exact hmin i (by omega) h

theorem codeUnits_append (x y : Str) :
    codeUnits (x ++ y) = codeUnits x ++ codeUnits y := by
  simp [codeUnits]

theorem encB_append (x y : Str) : encB (x ++ y) = encB x ++ encB y := by
  simp [encB, codeUnits_append]

theorem encU_append (x y : Str) : encU (x ++ y) = encU x ++ encU y := by
  simp [encU]

theorem jsLen_append (x y : Str) : jsLen (x ++ y) = jsLen x + jsLen y := by
  simp [jsLen, codeUnits_append]

theorem utf8Len_append (x y : Str) : utf8Len (x ++ y) = utf8Len x + utf8Len y := by
  simp [utf8Len, encU_append]

theorem length_encB (s : Str) : (encB s).length = jsLen s := by
  simp [encB, jsLen]

theorem encB_cons (c : Char) (s : Str) :
    encB (c :: s) = (u16units c).map (· % 256) ++ encB s := by
  simp [encB, codeUnits]

theorem encU_cons (c : Char) (s : Str) : encU (c :: s) = utf8Ch c ++ encU s := by
  simp [encU]

theorem joinNL_cons (x : Str) (xs : List Str) (hx : xs ≠ []) :
    joinNL (x :: xs) = x ++ Char.ofNat 10 :: joinNL xs := by
  cases xs with
  | nil => exact absurd rfl hx
  | cons y ys => rfl

theorem joinNL_append (xs ys : List Str) (hx : xs ≠ []) (hy : ys ≠ []) :
    joinNL (xs ++ ys) = joinNL xs ++ Char.ofNat 10 :: joinNL ys := by
  induction xs with
  | nil => exact absurd rfl hx
  | cons a as ih =>
    cases as with
    | nil =>
      rw [List.singleton_append, joinNL_cons a ys hy]
      rfl
    | cons a' as' =>
      rw [List.cons_append, joinNL_cons a ((a' :: as') ++ ys) (by simp),
        joinNL_cons a (a' :: as') (by simp), ih (by simp)]
      simp

/-! ## Colour conversion lemmas and claim C10 -/

theorem hexCore_isSome_iff (core : Str) : (hexCore core).isSome ↔ hexDigits6 core := by
  unfold hexCore
  split
  · rename_i a b c d e f
    by_cases h : isHexDigit a && isHexDigit b && isHexDigit c && isHexDigit d &&
        isHexDigit e && isHexDigit f
    · simp only [h, if_true, Option.isSome_some, true_iff, hexDigits6]
      simp only [Bool.and_eq_true] at h
      refine ⟨rfl, ?_⟩
      intro x hx
      simp only [List.mem_cons, List.not_mem_nil, or_false] at hx
      rcases hx with rfl | rfl | rfl | rfl | rfl | rfl
      · exact h.1.1.1.1.1
      · exact h.1.1.1.1.2
      · exact h.1.1.1.2
      · exact h.1.1.2
      · exact h.1.2
      · exact h.2
    · simp only [h, if_false, Option.isSome_none, Bool.false_eq_true, false_iff, hexDigits6]
      rintro ⟨_, hall⟩
      apply h
      simp only [Bool.and_eq_true]
      exact ⟨⟨⟨⟨⟨hall a (by simp), hall b (by simp)⟩, hall c (by simp)⟩,
        hall d (by simp)⟩, hall e (by simp)⟩, hall f (by simp)⟩
  · rename_i hshape
    simp only [Option.isSome_none, Bool.false_eq_true, false_iff, hexDigits6]
    rintro ⟨hlen, _⟩
    rcases core with _ | ⟨a, _ | ⟨b, _ | ⟨c, _ | ⟨d, _ | ⟨e, _ | ⟨f, rest⟩⟩⟩⟩⟩⟩ <;>
      simp only [List.length_cons, List.length_nil] at hlen <;> try omega
    cases rest with
    | nil => exact hshape a b c d e f rfl
    | cons g gs => simp at hlen

theorem hash_not_hexDigit : isHexDigit '#' = false := by decide

theorem matchHex6_isSome_iff (s : Str) : (matchHex6 s).isSome ↔ specHexMatch s := by
  unfold matchHex6 specHexMatch stripHash
  rcases s with _ | ⟨c, rest⟩
  · rw [hexCore_isSome_iff]
    simp [hexDigits6]
  · by_cases hc : c = '#'
    · subst hc
      simp only [if_true]
      rw [hexCore_isSome_iff]
      constructor
      · intro h; exact Or.inl ⟨rest, rfl, h⟩
      · rintro (⟨core, hcore, h⟩ | h)
        · injection hcore with _ h2; rw [h2]; exact h
        · exact absurd (h.2 '#' (by simp)) (by decide)
    · simp only [hc, if_false]
      rw [hexCore_isSome_iff]
      constructor
      · intro h; exact Or.inr h
      · rintro (⟨core, hcore, _⟩ | h)
        · injection hcore with h1 h2
          exact absurd h1 hc
        · exact h

/-- Claim C10: for every colour string that, after 4-unit short-hex
expansion, does not match an optional `#` followed by exactly six hex
digits — including the named CSS colours "red" and "blue" — `_hexToRgb`
returns the black triple `("0.000","0.000","0.000")`; for a string matching
the regex it returns each channel as `parseInt` of the hex pair divided by
255, printed with exactly three decimals. -/
theorem claim_C10 :
    (∀ s : Str, ¬ specHexMatch (expand4 s) →
      hexToRgb s = (str "0.000", str "0.000", str "0.000")) ∧
    (∀ (s : Str) (r g b : Nat), matchHex6 (expand4 s) = some (r, g, b) →
      hexToRgb s = (fixed3Of255 r, fixed3Of255 g, fixed3Of255 b)) ∧
    (∀ s : Str, (matchHex6 s).isSome ↔ specHexMatch s) ∧
    hexToRgb (str "red") = (str "0.000", str "0.000", str "0.000") ∧
    hexToRgb (str "blue") = (str "0.000", str "0.000", str "0.000") ∧
    hexToRgb (str "#ff0000") = (str "1.000", str "0.000", str "0.000") ∧
    hexToRgb (str "#f00") = (str "1.000", str "0.000", str "0.000") := by
  refine ⟨?_, ?_, matchHex6_isSome_iff, by decide, by decide, by decide, by decide⟩
  · intro s hns
    have hnone : matchHex6 (expand4 s) = none := by
      cases hm : matchHex6 (expand4 s) with
      | none => rfl
      | some v =>
        exact absurd ((matchHex6_isSome_iff _).mp (by rw [hm]; rfl)) hns
    unfold hexToRgb
    rw [hnone]
  · intro s r g b hm
    unfold hexToRgb
    rw [hm]

/-- Witness for claim C10 at concrete inputs. -/
theorem claim_C10_witness :
    (¬ specHexMatch (expand4 (str "red")) ∧
      hexToRgb (str "red") = (str "0.000", str "0.000", str "0.000")) ∧
    (matchHex6 (expand4 (str "#2e2e2e")) = some (46, 46, 46) ∧
      hexToRgb (str "#2e2e2e") = (fixed3Of255 46, fixed3Of255 46, fixed3Of255 46)) := by
  have hnm : ¬ specHexMatch (expand4 (str "red")) := fun h => by
    have := (matchHex6_isSome_iff (expand4 (str "red"))).mpr h
    revert this
    decide
  exact ⟨⟨hnm, claim_C10.1 (str "red") hnm⟩,
    ⟨by decide, claim_C10.2.1 (str "#2e2e2e") 46 46 46 (by decide)⟩⟩

/-! ## Escaping lemmas and claim C6 -/

theorem length_u16units (c : Char) : (u16units c).length = u16len c := by
  unfold u16units u16len
  by_cases h : c.toNat < 0x10000 <;> simp [h]

theorem jsLen_cons (c : Char) (s : Str) : jsLen (c :: s) = u16len c + jsLen s := by
  simp [jsLen, codeUnits, length_u16units]

theorem takeUnits_of_le (n : Nat) (s : Str) (h : jsLen s ≤ n) : takeUnits n s = s := by
  induction s generalizing n with
  | nil => rfl
  | cons c cs ih =>
    rw [jsLen_cons] at h
    have h1 : u16len c ≤ n := by omega
    unfold takeUnits
    rw [if_pos h1, ih (n - u16len c) (by omega)]

theorem escRawMP_cons (c : Char) (s : Str) :
    escRawMP (c :: s) = escCharMP c ++ escRawMP s := by
  simp [escRawMP]

theorem unescMP_escRawMP (s : Str) : unescMP (escRawMP s) = s := by
  induction s with
  | nil => rfl
  | cons c s ih =>
    rw [escRawMP_cons]
    unfold escCharMP
    by_cases h1 : c = '\\'
    · subst h1; simp [unescMP, unescChar2, ih]
    rw [if_neg h1]
    by_cases h2 : c = '('
    · subst h2; simp [unescMP, unescChar2, ih]
    rw [if_neg h2]
    by_cases h3 : c = ')'
    · subst h3; simp [unescMP, unescChar2, ih]
    rw [if_neg h3]
    by_cases h4 : c = Char.ofNat 13
    · subst h4; simp [unescMP, unescChar2, ih]
    rw [if_neg h4]
    by_cases h5 : c = Char.ofNat 10
    · subst h5; simp [unescMP, unescChar2, ih]
    rw [if_neg h5]
    by_cases h6 : c = Char.ofNat 9
    · subst h6; simp [unescMP, unescChar2, ih]
    rw [if_neg h6]
    show unescMP (c :: escRawMP s) = c :: s
    unfold unescMP
    rw [if_neg h1, ih]

theorem escSS_cons (c : Char) (s : Str) :
    escapePDFString (c :: s) = escCharSS c ++ escapePDFString s := by
  simp [escapePDFString]

theorem unescSS_escSS (s : Str) : unescSS (escapePDFString s) = s.map wsToSpace := by
  induction s with
  | nil => rfl
  | cons c s ih =>
    rw [escSS_cons, List.map_cons]
    unfold escCharSS
    by_cases h1 : c = '\\'
    · subst h1
      simp [unescSS, ih, wsToSpace]
    rw [if_neg h1]
    by_cases h2 : c = '('
    · subst h2
      simp [unescSS, ih, wsToSpace]
    rw [if_neg h2]
    by_cases h3 : c = ')'
    · subst h3
      simp [unescSS, ih, wsToSpace]
    rw [if_neg h3]
    by_cases h4 : c = Char.ofNat 13 ∨ c = Char.ofNat 10 ∨ c = Char.ofNat 9
    · rw [if_pos h4]
      show unescSS (' ' :: escapePDFString s) = _
      unfold unescSS
      rw [if_neg (by decide), ih]
      congr 1
      simp only [wsToSpace, if_pos h4]
    · rw [if_neg h4]
      show unescSS (c :: escapePDFString s) = _
      unfold unescSS
      rw [if_neg h1, ih]
      congr 1
      simp only [wsToSpace, if_neg h4]

/-- Claim C6 (amended): reversing the documented escape rule on the escaper
output reproduces the original characters — for the multi-page
`_escapeString` provided the escaped form fits the 1000-unit truncation
limit (beyond it characters are lost, see the counterexample), and for the
single-stream `_escapePDFString` for all strings modulo the documented
CR/LF/TAB→space policy. -/
theorem claim_C6 :
    (∀ s : Str, jsLen (escRawMP s) ≤ 1000 → unescMP (escapeString s) = s) ∧
    (∀ s : Str, unescSS (escapePDFString s) = s.map wsToSpace) := by
  constructor
  · intro s h
    unfold escapeString
    rw [takeUnits_of_le 1000 (escRawMP s) h, unescMP_escRawMP]
  · exact unescSS_escSS

/-- Witness for claim C6 at a concrete input containing every escaped
character class. -/
theorem claim_C6_witness :
    jsLen (escRawMP (str "a(b)c\\")) ≤ 1000 ∧
    unescMP (escapeString (str "a(b)c\\")) = str "a(b)c\\" ∧
    unescSS (escapePDFString (str "x\ty")) = (str "x\ty").map wsToSpace :=
  ⟨by decide, claim_C6.1 (str "a(b)c\\") (by decide), claim_C6.2 (str "x\ty")⟩

/-- Counterexample for claim C6 as stated: the multi-page `_escapeString`
truncates its output to 1000 units, so a 1001-character string does not
round-trip — characters are lost. -/
theorem claim_C6_counterexample :
    unescMP (escapeString (List.replicate 1001 'a')) ≠ List.replicate 1001 'a' := by
  decide

/-! ## Word-wrapping lemmas and claim C7 -/

theorem jsLen_takeUnits_le (m : Nat) (s : Str) : jsLen (takeUnits m s) ≤ m := by
  induction s generalizing m with
  | nil => simp [takeUnits, jsLen, codeUnits]
  | cons c cs ih =>
    unfold takeUnits
    by_cases h : u16len c ≤ m
    · rw [if_pos h, jsLen_cons]
      have := ih (m - u16len c)
      omega
    · rw [if_neg h]
      simp [jsLen, codeUnits]

theorem chunkWordGo_bound (m fuel : Nat) (w : Str) :
    ∀ l ∈ chunkWordGo m fuel w, jsLen l ≤ m := by
  induction fuel generalizing w with
  | zero =>
    intro l hl
    cases w <;> simp [chunkWordGo] at hl
  | succ fuel ih =>
    cases w with
    | nil => intro l hl; cases hl
    | cons c cs =>
      intro l hl
      unfold chunkWordGo at hl
      by_cases hm : m = 0
      · rw [if_pos hm] at hl; cases hl
      · rw [if_neg hm] at hl
        rcases List.mem_cons.mp hl with rfl | hl
        · exact jsLen_takeUnits_le m (c :: cs)
        · exact ih _ l hl

theorem foldl_wrapStep_bound (m : Nat) (words : List Str) (lines : List Str)
    (cur : Str) (hl : ∀ l ∈ lines, jsLen l ≤ m) (hc : jsLen cur ≤ m) :
    (∀ l ∈ (words.foldl (fun st w => wrapStep m st.1 st.2 w) (lines, cur)).1,
        jsLen l ≤ m) ∧
      jsLen (words.foldl (fun st w => wrapStep m st.1 st.2 w) (lines, cur)).2 ≤ m := by
  induction words generalizing lines cur with
  | nil => exact ⟨hl, hc⟩
  | cons w ws ih =>
    rw [List.foldl_cons]
    have hstep : (∀ l ∈ (wrapStep m lines cur w).1, jsLen l ≤ m) ∧
        jsLen (wrapStep m lines cur w).2 ≤ m := by
      unfold wrapStep
      by_cases htest : jsLen (cur ++ (if cur ≠ [] then [' '] else []) ++ w) ≤ m
      · rw [if_pos htest]
        exact ⟨hl, htest⟩
      · rw [if_neg htest]
        have hl1 : ∀ l ∈ (if cur ≠ [] then lines ++ [cur] else lines), jsLen l ≤ m := by
          by_cases hcur : cur ≠ []
          · rw [if_pos hcur]
            intro l hlm
            rcases List.mem_append.mp hlm with h | h
            · exact hl l h
            · rw [List.mem_singleton.mp h]; exact hc
          · rw [if_neg hcur]; exact hl
        by_cases hlong : m < jsLen w
        · rw [if_pos hlong]
          refine ⟨?_, by simp [jsLen, codeUnits]⟩
          intro l hlm
          rcases List.mem_append.mp hlm with h | h
          · exact hl1 l h
          · exact chunkWordGo_bound m w.length w l h
        · rw [if_neg hlong]
          refine ⟨hl1, ?_⟩
          show jsLen w ≤ m
          omega
    exact ih _ _ hstep.1 hstep.2

theorem paraLines_bound (m : Nat) (p : Str) : ∀ l ∈ paraLines m p, jsLen l ≤ m := by
  intro l hl
  unfold paraLines at hl
  have h := foldl_wrapStep_bound m (splitWs (trim p)) [] []
    (fun _ hx => absurd hx (List.not_mem_nil _)) (by simp [jsLen, codeUnits])
  set st := (splitWs (trim p)).foldl (fun st w => wrapStep m st.1 st.2 w) ([], []) with hst
  by_cases hcur : st.2 ≠ []
  · rw [if_pos hcur] at hl
    rcases List.mem_append.mp hl with hx | hx
    · exact h.1 l hx
    · rw [List.mem_singleton.mp hx]; exact h.2
  · rw [if_neg hcur] at hl
    exact h.1 l hl

theorem blankJoin_mem {l : Str} : ∀ (xss : List (List Str)), l ∈ blankJoin xss →
    (∃ g ∈ xss, l ∈ g) ∨ l = []
  | [], h => by cases h
  | [x], h => Or.inl ⟨x, by simp, h⟩
  | x :: y :: rest, h => by
    rcases List.mem_append.mp h with hx | hx
    · exact Or.inl ⟨x, by simp, hx⟩
    · rcases List.mem_cons.mp hx with rfl | hx
      · exact Or.inr rfl
      · rcases blankJoin_mem (y :: rest) hx with ⟨g, hg, hlg⟩ | hnil
        · exact Or.inl ⟨g, List.mem_cons_of_mem x hg, hlg⟩
        · exact Or.inr hnil

theorem processTextToLines_bound (text : Str) (o : MPOptions) :
    ∀ l ∈ processTextToLines text o, jsLen l ≤ (computedMcpl o).toNat := by
  intro l hl
  unfold processTextToLines at hl
  rcases blankJoin_mem _ hl with ⟨g, hg, hlg⟩ | rfl
  · rcases List.mem_map.mp hg with ⟨p, _, rfl⟩
    exact paraLines_bound _ p l hlg
  · simp [jsLen, codeUnits]

/-- Claim C7: `_processTextToLines` greedily packs whole words while the
tentative line stays within `maxCharsPerLine`, and hard-splits an over-long
word into `maxCharsPerLine`-unit chunks: with computed limit 10 the text
`"aaaaaaaaaa bbbbbbbbbb"` yields exactly the two full lines, with limit 5
the single word `"abcdefghijklmnop"` yields `["abcde","fghij","klmno","p"]`,
and in general every produced line stays within the limit. -/
theorem claim_C7 :
    (computedMcpl (sanitizeOptions
        ⟨none, some (jn 10), none,
          .obj (some (jn 50)) (some (jn 100)) (some (jn 50)) (some (jn 100)),
          some (jn 260), none⟩ cfgDefaults) = 10 ∧
      processTextToLines (str "aaaaaaaaaa bbbbbbbbbb") (sanitizeOptions
        ⟨none, some (jn 10), none,
          .obj (some (jn 50)) (some (jn 100)) (some (jn 50)) (some (jn 100)),
          some (jn 260), none⟩ cfgDefaults) =
        [str "aaaaaaaaaa", str "bbbbbbbbbb"]) ∧
    (computedMcpl (sanitizeOptions
        ⟨none, some (jn 10), none,
          .obj (some (jn 50)) (some (jn 100)) (some (jn 50)) (some (jn 100)),
          some (jn 230), none⟩ cfgDefaults) = 5 ∧
      processTextToLines (str "abcdefghijklmnop") (sanitizeOptions
        ⟨none, some (jn 10), none,
          .obj (some (jn 50)) (some (jn 100)) (some (jn 50)) (some (jn 100)),
          some (jn 230), none⟩ cfgDefaults) =
        [str "abcde", str "fghij", str "klmno", str "p"]) ∧
    (∀ (text : Str) (o : MPOptions), 1 ≤ computedMcpl o →
      ∀ l ∈ processTextToLines text o, jsLen l ≤ (computedMcpl o).toNat) := by
  refine ⟨⟨by decide, by decide⟩, ⟨by decide, by decide⟩, ?_⟩
  intro text o _ l hl
  exact processTextToLines_bound text o l hl

/-- Witness for claim C7's universal part at the limit-5 options. -/
theorem claim_C7_witness :
    1 ≤ computedMcpl (sanitizeOptions
      ⟨none, some (jn 10), none,
        .obj (some (jn 50)) (some (jn 100)) (some (jn 50)) (some (jn 100)),
        some (jn 230), none⟩ cfgDefaults) ∧
    ∀ l ∈ processTextToLines (str "abcdefghijklmnop") (sanitizeOptions
      ⟨none, some (jn 10), none,
        .obj (some (jn 50)) (some (jn 100)) (some (jn 50)) (some (jn 100)),
        some (jn 230), none⟩ cfgDefaults),
      jsLen l ≤ (computedMcpl (sanitizeOptions
        ⟨none, some (jn 10), none,
          .obj (some (jn 50)) (some (jn 100)) (some (jn 50)) (some (jn 100)),
          some (jn 230), none⟩ cfgDefaults)).toNat :=
  ⟨by decide, claim_C7.2.2 (str "abcdefghijklmnop") _ (by decide)⟩

/-! ## Loop-termination lemmas and claims C4 / C8 -/

theorem loopIdx_nonpos (step : Int) (h : step ≤ 0) : ∀ n, loopIdx step n ≤ 0
  | 0 => le_rfl
  | n + 1 => by
    have := loopIdx_nonpos step h n
    unfold loopIdx
    omega

/-- Claim C4 (the code has no clamp): with sanitized options — page width
200 with left/right margins 150, or page height 200 with top/bottom margins
150 — the computed `maxCharsPerLine` / `linesPerPage` are negative, and the
`i += step` loop counters of the hard-split loop and of the page-splitting
loop then satisfy their `i < length` guards forever: the source loops
without terminating, contradicting the claimed clamp-to-1. -/
theorem claim_C4 :
    computedMcpl (sanitizeOptions
      ⟨none, some (jn 12), none, .obj none (some (jn 150)) none (some (jn 150)),
        some (jn 200), none⟩ cfgDefaults) = -14 ∧
    (∀ n, loopIdx (computedMcpl (sanitizeOptions
      ⟨none, some (jn 12), none, .obj none (some (jn 150)) none (some (jn 150)),
        some (jn 200), none⟩ cfgDefaults)) n < (jsLen (str "Hello") : Int)) ∧
    computedLpp (sanitizeOptions
      ⟨none, none, some (jn 15), .obj (some (jn 150)) none (some (jn 150)) none,
        none, some (jn 200)⟩ cfgDefaults) = -7 ∧
    (∀ n, loopIdx (computedLpp (sanitizeOptions
      ⟨none, none, some (jn 15), .obj (some (jn 150)) none (some (jn 150)) none,
        none, some (jn 200)⟩ cfgDefaults)) n < (1 : Int)) := by
  refine ⟨by decide, ?_, by decide, ?_⟩
  · intro n
    have h1 : computedMcpl (sanitizeOptions
      ⟨none, some (jn 12), none, .obj none (some (jn 150)) none (some (jn 150)),
        some (jn 200), none⟩ cfgDefaults) = -14 := by decide
    rw [h1]
    have := loopIdx_nonpos (-14) (by omega) n
    have h2 : jsLen (str "Hello") = 5 := by decide
    omega
  · intro n
    have h1 : computedLpp (sanitizeOptions
      ⟨none, none, some (jn 15), .obj (some (jn 150)) none (some (jn 150)) none,
        none, some (jn 200)⟩ cfgDefaults) = -7 := by decide
    rw [h1]
    have := loopIdx_nonpos (-7) (by omega) n
    omega

theorem qle_refl (a : JsNum) : qle a a := le_rfl

theorem qle_of_not_qle {a b : JsNum} (h : ¬ qle a b) : qle b a := by
  unfold qle at h ⊢
  omega

theorem validateNumber_mem (v : JsNum) (dflt mn mx : JsNum) (h : qle mn mx) :
    qle mn (validateNumber (some v) dflt mn mx) ∧
      qle (validateNumber (some v) dflt mn mx) mx := by
  rw [show validateNumber (some v) dflt mn mx = qmax mn (qmin mx v) from rfl]
  unfold qmax qmin
  by_cases h1 : qle mx v
  · rw [if_pos h1, if_pos h]
    exact ⟨h, qle_refl mx⟩
  · rw [if_neg h1]
    by_cases h2 : qle mn v
    · rw [if_pos h2]
      exact ⟨h2, qle_of_not_qle h1⟩
    · rw [if_neg h2]
      exact ⟨qle_refl mn, h⟩

/-- Claim C8 (amended): the text entry point errors exactly on a null /
empty / oversized input or a call already in flight; for every other string
input whose sanitized geometry gives positive computed per-line and
per-page limits (with a non-positive limit the source's loops never
terminate — see the counterexample) it returns a buffer; and every supplied
numeric option value is clamped into its allowed range, never an error. -/
theorem claim_C8 :
    (∀ (cfg : GenConfig) (proc : Bool) (t : Option Str) (opts : RawOptions)
        (d : DateParts),
      (∃ e, generatePDFFromText cfg proc t opts d = .error e) ↔
        (t = none ∨ ∃ s, t = some s ∧
          (jsLen s = 0 ∨ cfg.maxContentSize < jsLen s ∨ proc = true))) ∧
    (∀ (cfg : GenConfig) (s : Str) (opts : RawOptions) (d : DateParts),
      jsLen s ≠ 0 → jsLen s ≤ cfg.maxContentSize →
      1 ≤ computedMcpl (sanitizeOptions opts cfg) →
      1 ≤ computedLpp (sanitizeOptions opts cfg) →
      ∃ buf, generatePDFFromText cfg false (some s) opts d = .ok buf) ∧
    (∀ (v dflt mn mx : JsNum), qle mn mx →
      qle mn (validateNumber (some v) dflt mn mx) ∧
        qle (validateNumber (some v) dflt mn mx) mx) := by
  refine ⟨?_, ?_, fun v dflt mn mx h => validateNumber_mem v dflt mn mx h⟩
  · intro cfg proc t opts d
    cases t with
    | none => exact iff_of_true ⟨.invalidInput, rfl⟩ (Or.inl rfl)
    | some s =>
      simp only [generatePDFFromText]
      by_cases h0 : jsLen s = 0
      · rw [if_pos h0]
        exact iff_of_true ⟨.invalidInput, rfl⟩ (Or.inr ⟨s, rfl, Or.inl h0⟩)
      rw [if_neg h0]
      by_cases h1 : cfg.maxContentSize < jsLen s
      · rw [if_pos h1]
        exact iff_of_true ⟨.invalidInput, rfl⟩ (Or.inr ⟨s, rfl, Or.inr (Or.inl h1)⟩)
      rw [if_neg h1]
      cases proc with
      | true =>
        rw [if_pos rfl]
        exact iff_of_true ⟨.alreadyProcessing, rfl⟩ (Or.inr ⟨s, rfl, Or.inr (Or.inr rfl)⟩)
      | false =>
        rw [if_neg (by simp)]
        constructor
        · rintro ⟨e, he⟩
          cases he
        · rintro (h | ⟨s', hs', h⟩)
          · cases h
          · injection hs' with hss
            subst hss
            rcases h with h | h | h
            · exact absurd h h0
            · exact absurd h h1
            · cases h
  · intro cfg s opts d h0 h1 _ _
    simp only [generatePDFFromText]
    rw [if_neg h0, if_neg (by omega), if_neg (by simp)]
    exact ⟨_, rfl⟩

/-- Witness for claim C8 at the default configuration. -/
theorem claim_C8_witness :
    (jsLen (str "Hello") ≠ 0 ∧ jsLen (str "Hello") ≤ cfgDefaults.maxContentSize ∧
      1 ≤ computedMcpl (sanitizeOptions ⟨none, none, none, .undef, none, none⟩
        cfgDefaults) ∧
      1 ≤ computedLpp (sanitizeOptions ⟨none, none, none, .undef, none, none⟩
        cfgDefaults) ∧
      ∃ buf, generatePDFFromText cfgDefaults false (some (str "Hello"))
        ⟨none, none, none, .undef, none, none⟩ ⟨2026, 10, 12, 0, 0, 0⟩ = .ok buf) ∧
    (qle (jn 6) (jn 72) ∧
      qle (jn 6) (validateNumber (some (jn 300)) (jn 12) (jn 6) (jn 72)) ∧
        qle (validateNumber (some (jn 300)) (jn 12) (jn 6) (jn 72)) (jn 72)) := by
  refine ⟨⟨by decide, by decide, by decide, by decide, ?_⟩, by decide, ?_, ?_⟩
  · exact claim_C8.2.1 cfgDefaults (str "Hello")
      ⟨none, none, none, .undef, none, none⟩ ⟨2026, 10, 12, 0, 0, 0⟩
      (by decide) (by decide) (by decide) (by decide)
  · exact (claim_C8.2.2 (jn 300) (jn 12) (jn 6) (jn 72) (by decide)).1
  · exact (claim_C8.2.2 (jn 300) (jn 12) (jn 6) (jn 72) (by decide)).2

/-- Counterexample for claim C8 as stated: the input "World" passes every
validation check with in-range options (page width 200, margin 150), yet
the computed `maxCharsPerLine` is negative and the source's hard-split loop
counter satisfies its guard forever — no buffer is ever returned. -/
theorem claim_C8_counterexample :
    jsLen (str "World") ≠ 0 ∧
    jsLen (str "World") ≤ cfgDefaults.maxContentSize ∧
    computedMcpl (sanitizeOptions ⟨none, none, none, .num (jn 150),
      some (jn 200), none⟩ cfgDefaults) = -14 ∧
    (∀ n, loopIdx (computedMcpl (sanitizeOptions ⟨none, none, none, .num (jn 150),
      some (jn 200), none⟩ cfgDefaults)) n < (jsLen (str "World") : Int)) := by
  refine ⟨by decide, by decide, by decide, ?_⟩
  intro n
  have h1 : computedMcpl (sanitizeOptions ⟨none, none, none, .num (jn 150),
      some (jn 200), none⟩ cfgDefaults) = -14 := by decide
  rw [h1]
  have := loopIdx_nonpos (-14) (by omega) n
  have h2 : jsLen (str "World") = 5 := by decide
  omega

/-! ## JsNum valuation lemmas and claim C9 -/

theorem den_pos_q (a : JsNum) : (0 : ℚ) < (a.val.2 : ℚ) := by
  exact_mod_cast a.2

theorem den_ne_zero_q (a : JsNum) : ((a.val.2 : ℚ)) ≠ 0 :=
  ne_of_gt (den_pos_q a)

theorem qval_jn (n : Int) : qval (jn n) = (n : ℚ) := by
  simp [qval, jn]

theorem qval_sub (a b : JsNum) : qval (qsub a b) = qval a - qval b := by
  unfold qval qsub
  have ha := den_ne_zero_q a
  have hb := den_ne_zero_q b
  field_simp
  ring

theorem qval_mul (a b : JsNum) : qval (qmul a b) = qval a * qval b := by
  unfold qval qmul
  have ha := den_ne_zero_q a
  have hb := den_ne_zero_q b
  field_simp

theorem qlt_iff (a b : JsNum) : qlt a b ↔ qval a < qval b := by
  unfold qlt qval
  rw [div_lt_div_iff (den_pos_q a) (den_pos_q b)]
  constructor
  · intro h; exact_mod_cast h
  · intro h; exact_mod_cast h

theorem qle_iff (a b : JsNum) : qle a b ↔ qval a ≤ qval b := by
  unfold qle qval
  rw [div_le_div_iff (den_pos_q a) (den_pos_q b)]
  constructor
  · intro h; exact_mod_cast h
  · intro h; exact_mod_cast h

theorem qle_qmax_left (a b : JsNum) : qle a (qmax a b) := by
  unfold qmax
  by_cases h : qle a b
  · rw [if_pos h]; exact h
  · rw [if_neg h]; exact qle_refl a

/-- Every text-showing op the single-stream emitter produces sits strictly
above the bottom margin: the guard ensures `y₁ - 1.5·f ≥ bottom` and the
baseline is `y₁ - f` with `f ≥ 8`. -/
theorem genCSGo_txt_above (o : SSOptions) :
    ∀ (items : List SSItem) (y : JsNum) (bold : Bool) (fs : JsNum)
      (rgb : Str × Str × Str) (x ty : JsNum) (t : Str),
      SSOp.txt bold fs rgb x ty t ∈ genCSGo o items y →
      qlt o.margin.bottom ty := by
  intro items
  induction items with
  | nil => intro y bold fs rgb x ty t h; cases h
  | cons item rest ih =>
    intro y bold fs rgb x ty t h
    cases item with
    | rule mt mb =>
      rw [show genCSGo o (.rule mt mb :: rest) y =
        .hr o.margin.left (qsub o.pageWidth o.margin.right)
            (qsub y (qOr mt (jn 8))) ::
          genCSGo o rest (qsub (qsub y (qOr mt (jn 8))) (qOr mb (jn 8))) from rfl] at h
      rcases List.mem_cons.mp h with heq | h
      · cases heq
      · exact ih _ bold fs rgb x ty t h
    | text tx heading tfs color mt mb =>
      rw [show genCSGo o (.text tx heading tfs color mt mb :: rest) y =
        (if tx ≠ [] ∧ trim tx ≠ [] then
          if qlt (qsub (if qlt (jn 0) mt then qsub y mt else y)
              (qmul (qmax (jn 8) (qmin (jn 24) (qOr tfs (jn 12)))) (jq 3 2)))
              o.margin.bottom then []
          else
            .txt heading (qmax (jn 8) (qmin (jn 24) (qOr tfs (jn 12))))
                (hexToRgb (if color = [] then str "#000000" else color))
                o.margin.left
                (qsub (if qlt (jn 0) mt then qsub y mt else y)
                  (qmax (jn 8) (qmin (jn 24) (qOr tfs (jn 12))))) tx ::
              genCSGo o rest
                (qsub (qsub (if qlt (jn 0) mt then qsub y mt else y)
                    (qmul (qmax (jn 8) (qmin (jn 24) (qOr tfs (jn 12)))) (jq 3 2)))
                  (if qlt (jn 0) mb then mb else jn 0))
        else genCSGo o rest y) from rfl] at h
      by_cases hne : tx ≠ [] ∧ trim tx ≠ []
      · rw [if_pos hne] at h
        set y1 := if qlt (jn 0) mt then qsub y mt else y with hy1
        set f := qmax (jn 8) (qmin (jn 24) (qOr tfs (jn 12))) with hf
        by_cases hguard : qlt (qsub y1 (qmul f (jq 3 2))) o.margin.bottom
        · rw [if_pos hguard] at h
          cases h
        · rw [if_neg hguard] at h
          rcases List.mem_cons.mp h with heq | h
          · injection heq with _ _ _ _ hty _
            subst hty
            rw [qlt_iff]
            rw [qlt_iff, qval_sub, qval_mul] at hguard
            have hf8 : (8 : ℚ) ≤ qval f := by
              have := (qle_iff (jn 8) f).mp (qle_qmax_left (jn 8) _)
              rwa [qval_jn] at this
            have h32 : qval (jq 3 2) = 3 / 2 := by
              unfold qval jq
              norm_num
            rw [h32] at hguard
            push_neg at hguard
            rw [qval_sub]
            linarith
          · exact ih _ bold fs rgb x ty t h
      · rw [if_neg hne] at h
        exact ih _ bold fs rgb x ty t h

theorem ssPre_ne_nil (cs : Str) (o : SSOptions) : ssPre cs o ≠ [] := by
  unfold ssPre
  simp

/-- The single-stream buffer ends with `%%EOF`. -/
theorem generateStablePDF_eof (content : List SSItem) (o : SSOptions) :
    ∃ X, generateStablePDF content o = X ++ encU (str "%%EOF") := by
  unfold generateStablePDF ssFull
  set cs := csText (generateContentStream content o)
  set front := ssBase cs o ++ ssEntryLines cs o ++
    [str "trailer", str "<<", str "/Size 5", str "/Root 1 0 R", str ">>",
      str "startxref", natStr (ssXrefPos cs o)] with hfront
  have hsplit : ssBase cs o ++ ssEntryLines cs o ++
      [str "trailer", str "<<", str "/Size 5", str "/Root 1 0 R", str ">>",
        str "startxref", natStr (ssXrefPos cs o), str "%%EOF"] =
      front ++ [str "%%EOF"] := by
    rw [hfront]
    simp
  rw [hsplit]
  have hfne : front ≠ [] := by
    rw [hfront]
    intro hnil
    have h1 : ssBase cs o ≠ [] := by
      unfold ssBase
      intro h2
      exact ssPre_ne_nil cs o (List.append_eq_nil.mp h2).1
    rcases List.append_eq_nil.mp hnil with ⟨h3, _⟩
    rcases List.append_eq_nil.mp h3 with ⟨h4, _⟩
    exact h1 h4
  rw [joinNL_append front [str "%%EOF"] hfne (by simp)]
  refine ⟨encU (joinNL front) ++ encU [Char.ofNat 10], ?_⟩
  rw [show Char.ofNat 10 :: joinNL [str "%%EOF"] =
    [Char.ofNat 10] ++ joinNL [str "%%EOF"] from rfl]
  rw [← List.append_assoc, encU_append, encU_append]
  rfl

/-- Claim C9 (amended): in the single-stream variant no text-showing `Tj`
op is ever emitted at a baseline below `margin.bottom` — the emitter breaks
at the first text item that would cross — and the returned buffer always
ends with `%%EOF`.  Horizontal-rule ops carry no bottom-margin check and
can fall below (see the counterexample). -/
theorem claim_C9 :
    (∀ (content : List SSItem) (o : SSOptions) (bold : Bool) (fs : JsNum)
        (rgb : Str × Str × Str) (x ty : JsNum) (t : Str),
      SSOp.txt bold fs rgb x ty t ∈ generateContentStream content o →
      qlt o.margin.bottom ty) ∧
    (∀ (content : List SSItem) (o : SSOptions),
      ∃ X, generateStablePDF content o = X ++ encU (str "%%EOF")) := by
  constructor
  · intro content o bold fs rgb x ty t h
    exact genCSGo_txt_above o content _ bold fs rgb x ty t h
  · exact generateStablePDF_eof

/-- Witness for claim C9 at a concrete document with one text element. -/
theorem claim_C9_witness :
    (SSOp.txt false (jn 16)
        (str "0.180", str "0.180", str "0.180") (jn 72) (jn 704) (str "Hi") ∈
      generateContentStream
        [SSItem.text (str "Hi") false (jn 16) (str "#2e2e2e") (jn 0) (jn 4)]
        ⟨jn 612, jn 792, ⟨jn 72, jn 72, jn 72, jn 72⟩⟩) ∧
    qlt (SSOptions.mk (jn 612) (jn 792) ⟨jn 72, jn 72, jn 72, jn 72⟩).margin.bottom
      (jn 704) :=
  ⟨by decide,
    claim_C9.1 [SSItem.text (str "Hi") false (jn 16) (str "#2e2e2e") (jn 0) (jn 4)]
      ⟨jn 612, jn 792, ⟨jn 72, jn 72, jn 72, jn 72⟩⟩ false (jn 16)
      (str "0.180", str "0.180", str "0.180") (jn 72) (jn 704) (str "Hi")
      (by decide)⟩

/-- Counterexample for claim C9 as stated: a horizontal rule is emitted
with no bottom-margin check; with top margin 720 on a 792pt page the rule's
stroke is placed at y = 60, below the bottom margin 72. -/
theorem claim_C9_counterexample :
    ∃ x1 x2 y, generateContentStream [SSItem.rule (jn 12) (jn 12)]
        ⟨jn 612, jn 792, ⟨jn 720, jn 72, jn 72, jn 72⟩⟩ = [SSOp.hr x1 x2 y] ∧
      qlt y (jn 72) := by
  refine ⟨jn 72, qsub (jn 612) (jn 72), qsub (qsub (jn 792) (jn 720)) (qOr (jn 12) (jn 8)), ?_, ?_⟩
  · decide
  · decide

/-! ## Claim C3: the shared-font reference on later pages -/

/-- Claim C3 fails on the code: in a two-page document (three lines, two
lines per page) the shared Helvetica font object gets id 7, the first Page
object references `/F1 7 0 R` correctly, but the second Page object
references `/F1 9 0 R` — the `objects.length + pages.length * 2 + 1`
formula is only right while `objects.length` still is 2. -/
theorem claim_C3 :
    (pagesOf [str "a", str "b", str "c"] (sanitizeOptions
      ⟨none, none, some (jn 100), .num (jn 0), none, some (jn 200)⟩
      cfgDefaults)).length = 2 ∧
    (∃ ob ∈ (createPDFDocument [str "a", str "b", str "c"] (str "T")
        (sanitizeOptions ⟨none, none, some (jn 100), .num (jn 0), none,
          some (jn 200)⟩ cfgDefaults) ⟨2026, 10, 12, 0, 0, 0⟩).1,
      ob.id = 3 + 2 * 2 ∧ ob.content = (fontObj 2).content) ∧
    (∃ ob ∈ (createPDFDocument [str "a", str "b", str "c"] (str "T")
        (sanitizeOptions ⟨none, none, some (jn 100), .num (jn 0), none,
          some (jn 200)⟩ cfgDefaults) ⟨2026, 10, 12, 0, 0, 0⟩).1,
      ob.id = 3 ∧ hasSeg (str "/F1 7 0 R") ob.content) ∧
    (∃ ob ∈ (createPDFDocument [str "a", str "b", str "c"] (str "T")
        (sanitizeOptions ⟨none, none, some (jn 100), .num (jn 0), none,
          some (jn 200)⟩ cfgDefaults) ⟨2026, 10, 12, 0, 0, 0⟩).1,
      ob.id = 5 ∧ hasSeg (str "/F1 9 0 R") ob.content ∧
        ¬ hasSeg (str "/F1 7 0 R") ob.content) := by
  refine ⟨by decide, by decide, by decide, by decide⟩

/-! ## Byte-offset lemmas and claim C1 -/

theorem drop_append_len {α : Type} (A B : List α) (n : Nat) :
    (A ++ B).drop (A.length + n) = B.drop n := by
  rw [List.drop_append_eq_append_drop, List.drop_eq_nil_of_le (by omega)]
  simp

theorem drop_append_of_le {α : Type} (A B : List α) (idx : Nat)
    (h : idx ≤ A.length) : (A ++ B).drop idx = A.drop idx ++ B := by
  rw [List.drop_append_eq_append_drop, Nat.sub_eq_zero_of_le h]
  simp

theorem utf8Ch_nl : utf8Ch (Char.ofNat 10) = [10] := by decide

theorem encU_joinNL_cons (e : Str) (rest : List Str) (h : rest ≠ []) :
    encU (joinNL (e :: rest)) = (encU e ++ [10]) ++ encU (joinNL rest) := by
  rw [joinNL_cons e rest h, encU_append, encU_cons, utf8Ch_nl]
  simp

/-- Dropping the recorded byte offset of element `k` from the UTF-8 buffer
of the newline-join leaves the join of the remaining elements. -/
theorem drop_joinNL_encU : ∀ (es : List Str) (k : Nat), k < es.length →
    (encU (joinNL es)).drop (sumNLBytes (es.take k)) = encU (joinNL (es.drop k))
  | es, 0, _ => by simp [sumNLBytes]
  | [], k + 1, hk => absurd hk (by simp)
  | e :: rest, k + 1, hk => by
    have hk' : k < rest.length := by
      simpa using Nat.lt_of_succ_lt_succ hk
    have hrne : rest ≠ [] := by
      intro h
      rw [h] at hk'
      exact absurd hk' (by simp)
    rw [show (e :: rest).take (k + 1) = e :: rest.take k from rfl,
      show (e :: rest).drop (k + 1) = rest.drop k from rfl,
      show sumNLBytes (e :: rest.take k) =
        (utf8Len e + 1) + sumNLBytes (rest.take k) from rfl,
      encU_joinNL_cons e rest hrne]
    have hlen : (encU e ++ [10]).length = utf8Len e + 1 := by
      simp [utf8Len]
    rw [← hlen, drop_append_len]
    exact drop_joinNL_encU rest k hk'

theorem findIndexJs_some {α : Type} (p : α → Bool) :
    ∀ (es : List α) (idx : Nat), findIndexJs p es = some idx →
      idx < es.length ∧ ∃ x post, es.drop idx = x :: post ∧ p x = true
  | [], idx, h => by cases h
  | e :: rest, idx, h => by
    unfold findIndexJs at h
    by_cases hp : p e
    · rw [if_pos hp] at h
      cases h
      exact ⟨by simp, e, rest, rfl, hp⟩
    · rw [if_neg hp] at h
      cases hf : findIndexJs p rest with
      | none => rw [hf] at h; cases h
      | some v =>
        rw [hf] at h
        simp only [Option.map_some'] at h
        cases h
        rcases findIndexJs_some p rest v hf with ⟨hlt, x, post, hdrop, hpx⟩
        exact ⟨by simpa using Nat.succ_lt_succ hlt, x, post, hdrop, hpx⟩

theorem sw_encU_head (pat : Str) (more : List Str) :
    sw (encU pat) (encU (joinNL (pat :: more))) := by
  cases more with
  | nil => exact ⟨[], by simp [joinNL]⟩
  | cons m ms =>
    rw [joinNL_cons pat (m :: ms) (by simp), encU_append]
    exact ⟨_, rfl⟩

theorem ssPre_len (cs : Str) (o : SSOptions) : (ssPre cs o).length = 41 := by
  unfold ssPre
  rfl

/-- Whenever `_generateStablePDF` records an xref offset for object `i`,
the buffer bytes at that offset begin with `i 0 obj`. -/
theorem ssObjPos_exact (content : List SSItem) (o : SSOptions) (i pos : Nat)
    (h : ssObjPos (csText (generateContentStream content o)) o i = some pos) :
    sw (encU (natStr i ++ str " 0 obj"))
      ((generateStablePDF content o).drop pos) := by
  set cs := csText (generateContentStream content o) with hcs
  unfold ssObjPos at h
  cases hf : findIndexJs (fun e => e == natStr i ++ str " 0 obj") (ssBase cs o) with
  | none => rw [hf] at h; cases h
  | some idx =>
    rw [hf] at h
    simp only [Option.map_some'] at h
    rcases findIndexJs_some _ _ idx hf with ⟨hlt, x, post, hdrop, hpx⟩
    have hx : x = natStr i ++ str " 0 obj" := by
      exact eq_of_beq hpx
    subst hx
    cases h
    have hfull : ssFull cs o = ssBase cs o ++
        (ssEntryLines cs o ++
          [str "trailer", str "<<", str "/Size 5", str "/Root 1 0 R", str ">>",
            str "startxref", natStr (ssXrefPos cs o), str "%%EOF"]) := by
      unfold ssFull
      rw [List.append_assoc]
    have hidxle : idx ≤ (ssBase cs o).length := le_of_lt hlt
    have htake : (ssFull cs o).take idx = (ssBase cs o).take idx := by
      rw [hfull]
      exact List.take_append_of_le_length hidxle
    have hdropfull : (ssFull cs o).drop idx =
        (natStr i ++ str " 0 obj") :: (post ++
          (ssEntryLines cs o ++
            [str "trailer", str "<<", str "/Size 5", str "/Root 1 0 R", str ">>",
              str "startxref", natStr (ssXrefPos cs o), str "%%EOF"])) := by
      rw [hfull, drop_append_of_le _ _ idx hidxle, hdrop]
      simp
    have hkfull : idx < (ssFull cs o).length := by
      rw [hfull, List.length_append]
      omega
    unfold generateStablePDF
    rw [← hcs]
    rw [show sumNLBytes ((ssBase cs o).take idx) =
      sumNLBytes ((ssFull cs o).take idx) from by rw [htake]]
    rw [drop_joinNL_encU (ssFull cs o) idx hkfull, hdropfull]
    exact sw_encU_head _ _

/-- The number recorded after `startxref` by `_generateStablePDF` is the
exact byte position at which the `xref` keyword begins. -/
theorem ssXrefPos_exact (content : List SSItem) (o : SSOptions) :
    sw (encU (str "xref")) ((generateStablePDF content o).drop
      (ssXrefPos (csText (generateContentStream content o)) o)) := by
  set cs := csText (generateContentStream content o) with hcs
  have hfull : ssFull cs o = ssPre cs o ++ (str "xref" ::
      ([str "0 5", str "0000000000 65535 f "] ++ (ssEntryLines cs o ++
        [str "trailer", str "<<", str "/Size 5", str "/Root 1 0 R", str ">>",
          str "startxref", natStr (ssXrefPos cs o), str "%%EOF"]))) := by
    unfold ssFull ssBase
    simp
  unfold generateStablePDF
  rw [← hcs, hfull,
    joinNL_append _ _ (ssPre_ne_nil cs o) (by simp), encU_append, encU_cons,
    utf8Ch_nl, ← List.append_assoc]
  rw [show ssXrefPos cs o = (encU (joinNL (ssPre cs o)) ++ [10]).length + 0 from by
    simp [ssXrefPos, utf8Len]]
  rw [drop_append_len]
  simpa using sw_encU_head (str "xref") _

/-- Claim C1: the single-stream serializer's recorded xref offsets and
startxref value are byte-exact; the multi-page `_buildPDFFile` is not — its
position accumulator omits the `'\n'` separators that `join('\n')` inserts,
so already for object 2 the recorded offset (64) points one byte before
the actual `2 0 obj` token (65), and the recorded startxref (598) misses
the `xref` keyword (604) by the object count. -/
theorem claim_C1 :
    (∀ (content : List SSItem) (o : SSOptions) (i pos : Nat),
      ssObjPos (csText (generateContentStream content o)) o i = some pos →
      sw (encU (natStr i ++ str " 0 obj"))
        ((generateStablePDF content o).drop pos)) ∧
    (∀ (content : List SSItem) (o : SSOptions),
      sw (encU (str "xref")) ((generateStablePDF content o).drop
        (ssXrefPos (csText (generateContentStream content o)) o))) ∧
    (mpPositions (createPDFDocument
        (processTextToLines (str "Hello world")
          (sanitizeOptions ⟨none, none, none, .undef, none, none⟩ cfgDefaults))
        (str "Text Document")
        (sanitizeOptions ⟨none, none, none, .undef, none, none⟩ cfgDefaults)
        ⟨2026, 10, 12, 1, 2, 3⟩).1 = [15, 64, 121, 255, 347, 417] ∧
      ¬ sw (encB (str "2 0 obj")) ((buildPDFFile (createPDFDocument
        (processTextToLines (str "Hello world")
          (sanitizeOptions ⟨none, none, none, .undef, none, none⟩ cfgDefaults))
        (str "Text Document")
        (sanitizeOptions ⟨none, none, none, .undef, none, none⟩ cfgDefaults)
        ⟨2026, 10, 12, 1, 2, 3⟩).1 6).drop 64) ∧
      firstIdx (encB (str "2 0 obj")) (buildPDFFile (createPDFDocument
        (processTextToLines (str "Hello world")
          (sanitizeOptions ⟨none, none, none, .undef, none, none⟩ cfgDefaults))
        (str "Text Document")
        (sanitizeOptions ⟨none, none, none, .undef, none, none⟩ cfgDefaults)
        ⟨2026, 10, 12, 1, 2, 3⟩).1 6) = some 65 ∧
      mpXrefPos (createPDFDocument
        (processTextToLines (str "Hello world")
          (sanitizeOptions ⟨none, none, none, .undef, none, none⟩ cfgDefaults))
        (str "Text Document")
        (sanitizeOptions ⟨none, none, none, .undef, none, none⟩ cfgDefaults)
        ⟨2026, 10, 12, 1, 2, 3⟩).1 = 598 ∧
      ¬ sw (encB (str "xref")) ((buildPDFFile (createPDFDocument
        (processTextToLines (str "Hello world")
          (sanitizeOptions ⟨none, none, none, .undef, none, none⟩ cfgDefaults))
        (str "Text Document")
        (sanitizeOptions ⟨none, none, none, .undef, none, none⟩ cfgDefaults)
        ⟨2026, 10, 12, 1, 2, 3⟩).1 6).drop 598) ∧
      firstIdx (encB (str "xref")) (buildPDFFile (createPDFDocument
        (processTextToLines (str "Hello world")
          (sanitizeOptions ⟨none, none, none, .undef, none, none⟩ cfgDefaults))
        (str "Text Document")
        (sanitizeOptions ⟨none, none, none, .undef, none, none⟩ cfgDefaults)
        ⟨2026, 10, 12, 1, 2, 3⟩).1 6) = some 604) := by
  refine ⟨ssObjPos_exact, ssXrefPos_exact,
    by decide, by decide, by decide, by decide, by decide, by decide⟩

/-- Witness for claim C1's single-stream part at a one-item document. -/
theorem claim_C1_witness :
    ssObjPos (csText (generateContentStream
        [SSItem.text (str "Hi there") false (jn 16) (str "#2e2e2e") (jn 0) (jn 4)]
        ⟨jn 612, jn 792, ⟨jn 72, jn 72, jn 72, jn 72⟩⟩))
      ⟨jn 612, jn 792, ⟨jn 72, jn 72, jn 72, jn 72⟩⟩ 1 = some 10 ∧
    sw (encU (natStr 1 ++ str " 0 obj"))
      ((generateStablePDF
        [SSItem.text (str "Hi there") false (jn 16) (str "#2e2e2e") (jn 0) (jn 4)]
        ⟨jn 612, jn 792, ⟨jn 72, jn 72, jn 72, jn 72⟩⟩).drop 10) :=
  ⟨by decide,
    claim_C1.1 [SSItem.text (str "Hi there") false (jn 16) (str "#2e2e2e") (jn 0) (jn 4)]
      ⟨jn 612, jn 792, ⟨jn 72, jn 72, jn 72, jn 72⟩⟩ 1 10 (by decide)⟩

/-! ## Stream-length lemmas and claim C2 -/

theorem encB_nl : encB [Char.ofNat 10] = [10] := by decide

theorem joinNL_mid (A B : List Str) (x : Str) (hA : A ≠ []) (hB : B ≠ []) :
    joinNL (A ++ x :: B) =
      joinNL A ++ Char.ofNat 10 :: (x ++ Char.ofNat 10 :: joinNL B) := by
  rw [joinNL_append A (x :: B) hA (by simp), joinNL_cons x B hB]

theorem mpFold_mono (pages : List (List Str)) (o : MPOptions) :
    ∀ (ps : List (List Str)) (st : List PdfObj × Nat) (x : PdfObj),
      x ∈ st.1 → x ∈ (ps.foldl (mpPageStep pages o) st).1
  | [], _, _, hx => hx
  | q :: qs, st, x, hx => by
    rw [List.foldl_cons]
    refine mpFold_mono pages o qs _ x ?_
    unfold mpPageStep
    exact List.mem_append_left _ hx

theorem mpFold_content_mem (pages : List (List Str)) (o : MPOptions) :
    ∀ (ps : List (List Str)) (st : List PdfObj × Nat), ∀ pl ∈ ps,
      ∃ cid, (⟨cid, contentObjContent (createContentStream pl o)⟩ : PdfObj) ∈
        (ps.foldl (mpPageStep pages o) st).1
  | [], _, pl, hpl => absurd hpl (List.not_mem_nil pl)
  | q :: qs, st, pl, hpl => by
    rw [List.foldl_cons]
    rcases List.mem_cons.mp hpl with rfl | hpl
    · refine ⟨st.2 + 1, mpFold_mono pages o qs _ _ ?_⟩
      unfold mpPageStep
      refine List.mem_append_right _ ?_
      simp
    · exact mpFold_content_mem pages o qs _ pl hpl

/-- Every page of `_createPDFDocument` gets a content-stream object. -/
theorem createPDFDocument_content_mem (lines : List Str) (title : Str)
    (o : MPOptions) (d : DateParts) :
    ∀ pl ∈ pagesOf lines o,
      ∃ cid, (⟨cid, contentObjContent (createContentStream pl o)⟩ : PdfObj) ∈
        (createPDFDocument lines title o d).1 := by
  intro pl hpl
  rcases mpFold_content_mem (pagesOf lines o) o (pagesOf lines o)
    ([catalogObj, pagesObj (pagesOf lines o).length], 3) pl hpl with ⟨cid, hmem⟩
  exact ⟨cid, List.mem_append_left _ hmem⟩

theorem joinNL_mem_split : ∀ (L : List Str) (x : Str), x ∈ L →
    ∃ X Y, joinNL L = X ++ x ++ Y
  | a :: T, x, hx => by
    rcases List.mem_cons.mp hx with rfl | hx
    · cases T with
      | nil => exact ⟨[], [], by simp [joinNL]⟩
      | cons b T =>
        refine ⟨[], Char.ofNat 10 :: joinNL (b :: T), ?_⟩
        rw [joinNL_cons x (b :: T) (by simp)]
        simp
    · have hT : T ≠ [] := by rintro rfl; exact absurd hx (List.not_mem_nil x)
      rcases joinNL_mem_split T x hx with ⟨X, Y, hXY⟩
      refine ⟨a ++ Char.ofNat 10 :: X, Y, ?_⟩
      rw [joinNL_cons a T hT, hXY]
      simp

/-- The buffer of `_buildPDFFile` contains each object's rendered
`id 0 obj … endobj` block, newline-bracketed. -/
theorem buildPDFFile_split (objs : List PdfObj) (infoId : Nat) (obj : PdfObj)
    (h : obj ∈ objs) :
    ∃ X Y, buildPDFFile objs infoId =
      X ++ encB (objContent obj) ++ Y := by
  have hmem : objContent obj ∈ mpLines objs infoId := by
    unfold mpLines
    simp only [List.mem_append]
    exact Or.inl (Or.inl (Or.inl (Or.inr (List.mem_map_of_mem objContent h))))
  rcases joinNL_mem_split (mpLines objs infoId) (objContent obj) hmem with ⟨X, Y, hXY⟩
  refine ⟨encB X, encB Y, ?_⟩
  unfold buildPDFFile
  rw [hXY, encB_append, encB_append]

/-- Claim C2: the `/Length` recorded for every content-stream object equals
the number of bytes the stream body occupies in the final buffer, in the
byte encoding that buffer is built with — the multi-page variant records
the UTF-16 unit count against a `'binary'`-encoded buffer (one byte per
unit), the single-stream variant records the UTF-8 byte length against a
UTF-8 buffer. -/
theorem claim_C2 :
    (∀ (lines : List Str) (title : Str) (o : MPOptions) (d : DateParts),
      ∀ pl ∈ pagesOf lines o,
        (encB (createContentStream pl o)).length = jsLen (createContentStream pl o) ∧
        ∃ cid X Y,
          (⟨cid, contentObjContent (createContentStream pl o)⟩ : PdfObj) ∈
            (createPDFDocument lines title o d).1 ∧
          buildPDFFile (createPDFDocument lines title o d).1
              (createPDFDocument lines title o d).2 =
            X ++ encB (str "stream\n") ++ encB (createContentStream pl o) ++
              (encB (str "\nendstream") ++ Y)) ∧
    (∀ (content : List SSItem) (o : SSOptions),
      (str "/Length " ++ natStr ((encU (csText (generateContentStream content o))).length)) ∈
        ssPre (csText (generateContentStream content o)) o ∧
      ∃ X Y, generateStablePDF content o =
        X ++ encU (str "stream\n") ++ encU (csText (generateContentStream content o)) ++
          (encU (str "\nendstream") ++ Y)) := by
  constructor
  · intro lines title o d pl hpl
    refine ⟨length_encB _, ?_⟩
    rcases createPDFDocument_content_mem lines title o d pl hpl with ⟨cid, hmem⟩
    rcases buildPDFFile_split (createPDFDocument lines title o d).1
      (createPDFDocument lines title o d).2 _ hmem with ⟨X, Y, hbuf⟩
    set cs := createContentStream pl o with hcs
    have hstr : objContent (⟨cid, contentObjContent cs⟩ : PdfObj) =
        (natStr cid ++ str " 0 obj\n" ++ str "<<\n/Length " ++ natStr (jsLen cs) ++
          str "\n>>\n") ++ str "stream\n" ++ cs ++ (str "\nendstream" ++ str "\nendobj\n") := by
      unfold objContent contentObjContent
      show _ ++ str " 0 obj\n" ++ (_ ++ _ ++ (str "\n>>\n" ++ str "stream\n") ++ _ ++ _) ++ _ = _
      simp
    refine ⟨cid, X ++ encB (natStr cid ++ str " 0 obj\n" ++ str "<<\n/Length " ++
      natStr (jsLen cs) ++ str "\n>>\n"), encB (str "\nendobj\n") ++ Y, hmem, ?_⟩
    rw [hbuf, hstr]
    simp [encB_append]
  · intro content o
    set cs := csText (generateContentStream content o) with hcs
    constructor
    · show str "/Length " ++ natStr (utf8Len cs) ∈ ssPre cs o
      unfold ssPre
      simp
    · have hfull : ssFull cs o =
          [str "%PDF-1.4", [],
            str "1 0 obj", str "<<", str "/Type /Catalog", str "/Pages 2 0 R",
            str ">>", str "endobj", [],
            str "2 0 obj", str "<<", str "/Type /Pages", str "/Kids [3 0 R]",
            str "/Count 1", str ">>", str "endobj", [],
            str "3 0 obj", str "<<", str "/Type /Page", str "/Parent 2 0 R",
            str "/MediaBox [0 0 " ++ numStr o.pageWidth ++ ' ' :: numStr o.pageHeight ++ [']'],
            str "/Resources <<", str "/Font <<",
            str "/F1 << /Type /Font /Subtype /Type1 /BaseFont /Helvetica >>",
            str "/F2 << /Type /Font /Subtype /Type1 /BaseFont /Helvetica-Bold >>",
            str ">>", str ">>", str "/Contents 4 0 R", str ">>", str "endobj", [],
            str "4 0 obj", str "<<", str "/Length " ++ natStr (utf8Len cs), str ">>"] ++
          str "stream" :: cs :: str "endstream" ::
            ([str "endobj", []] ++ [str "xref", str "0 5", str "0000000000 65535 f "] ++
              ssEntryLines cs o ++
              [str "trailer", str "<<", str "/Size 5", str "/Root 1 0 R", str ">>",
                str "startxref", natStr (ssXrefPos cs o), str "%%EOF"]) := by
        unfold ssFull ssBase ssPre
        simp
      unfold generateStablePDF
      rw [← hcs, hfull]
      rw [joinNL_mid _ _ _ (by simp) (by simp)]
      rw [joinNL_cons cs _ (by simp), joinNL_cons (str "endstream") _ (by simp)]
      refine ⟨encU (joinNL [str "%PDF-1.4", [],
            str "1 0 obj", str "<<", str "/Type /Catalog", str "/Pages 2 0 R",
            str ">>", str "endobj", [],
            str "2 0 obj", str "<<", str "/Type /Pages", str "/Kids [3 0 R]",
            str "/Count 1", str ">>", str "endobj", [],
            str "3 0 obj", str "<<", str "/Type /Page", str "/Parent 2 0 R",
            str "/MediaBox [0 0 " ++ numStr o.pageWidth ++ ' ' :: numStr o.pageHeight ++ [']'],
            str "/Resources <<", str "/Font <<",
            str "/F1 << /Type /Font /Subtype /Type1 /BaseFont /Helvetica >>",
            str "/F2 << /Type /Font /Subtype /Type1 /BaseFont /Helvetica-Bold >>",
            str ">>", str ">>", str "/Contents 4 0 R", str ">>", str "endobj", [],
            str "4 0 obj", str "<<", str "/Length " ++ natStr (utf8Len cs), str ">>"]) ++
          encU [Char.ofNat 10],
        encU (Char.ofNat 10 :: joinNL ([str "endobj", []] ++
          [str "xref", str "0 5", str "0000000000 65535 f "] ++ ssEntryLines cs o ++
          [str "trailer", str "<<", str "/Size 5", str "/Root 1 0 R", str ">>",
            str "startxref", natStr (ssXrefPos cs o), str "%%EOF"])), ?_⟩
      rw [show str "stream\n" = str "stream" ++ [Char.ofNat 10] from rfl,
        show str "\nendstream" = [Char.ofNat 10] ++ str "endstream" from rfl]
      simp [encU_append, encU_cons, show encU [] = ([] : List Nat) from rfl]

/-- Witness for claim C2's multi-page part at a one-line document with
default options. -/
theorem claim_C2_witness :
    [str "Hi"] ∈ pagesOf [str "Hi"]
      (sanitizeOptions ⟨none, none, none, .undef, none, none⟩ cfgDefaults) ∧
    ((encB (createContentStream [str "Hi"]
        (sanitizeOptions ⟨none, none, none, .undef, none, none⟩ cfgDefaults))).length =
      jsLen (createContentStream [str "Hi"]
        (sanitizeOptions ⟨none, none, none, .undef, none, none⟩ cfgDefaults)) ∧
    ∃ cid X Y,
      (⟨cid, contentObjContent (createContentStream [str "Hi"]
          (sanitizeOptions ⟨none, none, none, .undef, none, none⟩ cfgDefaults))⟩ : PdfObj) ∈
        (createPDFDocument [str "Hi"] (str "T")
          (sanitizeOptions ⟨none, none, none, .undef, none, none⟩ cfgDefaults)
          ⟨2026, 10, 12, 1, 2, 3⟩).1 ∧
      buildPDFFile
          (createPDFDocument [str "Hi"] (str "T")
            (sanitizeOptions ⟨none, none, none, .undef, none, none⟩ cfgDefaults)
            ⟨2026, 10, 12, 1, 2, 3⟩).1
          (createPDFDocument [str "Hi"] (str "T")
            (sanitizeOptions ⟨none, none, none, .undef, none, none⟩ cfgDefaults)
            ⟨2026, 10, 12, 1, 2, 3⟩).2 =
        X ++ encB (str "stream\n") ++ encB (createContentStream [str "Hi"]
            (sanitizeOptions ⟨none, none, none, .undef, none, none⟩ cfgDefaults)) ++
          (encB (str "\nendstream") ++ Y)) :=
  ⟨by decide,
    claim_C2.1 [str "Hi"] (str "T")
      (sanitizeOptions ⟨none, none, none, .undef, none, none⟩ cfgDefaults)
      ⟨2026, 10, 12, 1, 2, 3⟩ [str "Hi"] (by decide)⟩

/-! ## Trailer-freedom toolkit (claim C5) -/

theorem noSeg_of_short {α : Type} {p : List α} {s : List α}
    (h : s.length < p.length) : noSeg p s := by
  rintro ⟨i, t, ht⟩
  have hlen := congrArg List.length ht
  simp only [List.length_drop, List.length_append] at hlen
  omega

theorem noSeg_cons_safe {p x : List Nat} {b : Nat} (hlen : 2 ≤ p.length)
    (hb : b ∉ p) (hx : noSeg p x) : noSeg p (b :: x) := by
  have h1 : b :: x = [b] ++ x := rfl
  rw [h1]
  refine noSeg_append_lastSafe (noSeg_of_short (by simp; omega)) hx ?_
  intro c hc
  simp only [List.getLast?_singleton, Option.some.injEq] at hc
  subst hc
  exact hb

theorem hdOk_of_head {y : List Nat} {k : Nat} (h : y.head? = some k)
    (hk : k ∉ bts "trailer") : hdOk y := by
  intro b hb
  rw [h] at hb
  cases hb
  exact hk

theorem hdOk_of_forall {y : List Nat} (h : ∀ b ∈ y, b ∉ bts "trailer") : hdOk y := by
  intro b hb
  cases y with
  | nil => cases hb
  | cons a l =>
    simp only [List.head?_cons, Option.some.injEq] at hb
    subst hb
    exact h a (by simp)

theorem hdOk_append {x y : List Nat} (hx : hdOk x) (hy : hdOk y) :
    hdOk (x ++ y) := by
  cases x with
  | nil => simpa using hy
  | cons a l =>
    intro b hb
    simp only [List.cons_append, List.head?_cons, Option.some.injEq] at hb
    subst hb
    exact hx a rfl

/-- Glue two safe byte strings when the right one starts with a safe byte:
any straddling occurrence would cover the right part's first byte. -/
theorem noSeg_glue {x y : List Nat} (hx : noSeg (bts "trailer") x)
    (hy : noSeg (bts "trailer") y) (hh : hdOk y) :
    noSeg (bts "trailer") (x ++ y) :=
  noSeg_append_headSafe hx hy hh

theorem bts_trailer_ge97 : ∀ b ∈ bts "trailer", 97 ≤ b := by decide

theorem not_mem_trailer_of_lt97 {b : Nat} (h : b < 97) : b ∉ bts "trailer" :=
  fun hb => absurd (bts_trailer_ge97 b hb) (by omega)

theorem noSeg_of_no116 {s : List Nat} (h : 116 ∉ s) :
    noSeg (bts "trailer") s :=
  noSeg_of_not_mem (by decide : (116 : Nat) ∈ bts "trailer") h

theorem noSeg_of_small {s : List Nat} (h : ∀ b ∈ s, b < 97) :
    noSeg (bts "trailer") s :=
  noSeg_of_no116 (fun hm => absurd (h 116 hm) (by omega))

theorem hdOk_of_small {s : List Nat} (h : ∀ b ∈ s, b < 97) : hdOk s :=
  hdOk_of_forall (fun b hb => not_mem_trailer_of_lt97 (h b hb))

theorem mem_encB {s : Str} {b : Nat} (hb : b ∈ encB s) :
    ∃ c ∈ s, ∃ u ∈ u16units c, b = u % 256 := by
  induction s with
  | nil => simp [encB, codeUnits] at hb
  | cons c cs ih =>
    rw [encB_cons] at hb
    rcases List.mem_append.mp hb with h | h
    · rcases List.mem_map.mp h with ⟨u, hu, rfl⟩
      exact ⟨c, by simp, u, hu, rfl⟩
    · rcases ih h with ⟨c2, hc2, u, hu, hbu⟩
      exact ⟨c2, by simp [hc2], u, hu, hbu⟩

/-- Characters with small code points encode to themselves, so a character
bound gives a byte bound. -/
theorem encB_bound {s : Str} {k : Nat} (hk : k ≤ 256)
    (h : ∀ c ∈ s, c.toNat < k) : ∀ b ∈ encB s, b < k := by
  intro b hb
  rcases mem_encB hb with ⟨c, hc, u, hu, rfl⟩
  have hck := h c hc
  have hsmall : c.toNat < 0x10000 := by omega
  rw [u16units, if_pos hsmall] at hu
  simp only [List.mem_singleton] at hu
  subst hu
  rw [Nat.mod_eq_of_lt (by omega)]
  exact hck

theorem encB_head_ascii {c : Char} (s : Str) (h : c.toNat < 0x10000) :
    (encB (c :: s)).head? = some (c.toNat % 256) := by
  rw [encB_cons, u16units, if_pos h]
  rfl

theorem encB_cons_ascii {c : Char} (s : Str) (h : c.toNat < 0x10000) :
    encB (c :: s) = c.toNat % 256 :: encB s := by
  rw [encB_cons, u16units, if_pos h]
  rfl

/-! ### Output alphabets of the number formatters -/

theorem digitChar_toNat {d : Nat} (h : d < 10) : (digitChar d).toNat = 48 + d := by
  interval_cases d <;> decide

theorem natStrGo_char : ∀ (fuel n : Nat), ∀ c ∈ natStrGo fuel n, c.toNat < 58
  | 0, _ => by simp [natStrGo]
  | fuel + 1, n => by
    intro c hc
    rw [natStrGo] at hc
    by_cases h : n < 10
    · rw [if_pos h] at hc
      simp only [List.mem_singleton] at hc
      subst hc
      rw [digitChar_toNat h]
      omega
    · rw [if_neg h] at hc
      rcases List.mem_append.mp hc with h1 | h1
      · exact natStrGo_char fuel (n / 10) c h1
      · simp only [List.mem_singleton] at h1
        subst h1
        rw [digitChar_toNat (Nat.mod_lt n (by norm_num))]
        omega

theorem natStr_char (n : Nat) : ∀ c ∈ natStr n, c.toNat < 58 :=
  natStrGo_char (n + 1) n

theorem qfloor_le_qval (a : JsNum) : (qfloor a : ℚ) ≤ qval a := by
  obtain ⟨⟨n, dd⟩, hd⟩ := a
  unfold qfloor qval
  simp only at hd ⊢
  rw [Int.fdiv_eq_ediv n (le_of_lt hd)]
  have h1 : dd * (n / dd) + n % dd = n := Int.ediv_add_emod n dd
  have h2 : 0 ≤ n % dd := Int.emod_nonneg n (ne_of_gt hd)
  have hdq : (0 : ℚ) < (dd : ℚ) := by exact_mod_cast hd
  rw [le_div_iff hdq]
  have h1q : (dd : ℚ) * ((n / dd : Int) : ℚ) + ((n % dd : Int) : ℚ) = (n : ℚ) := by
    exact_mod_cast congrArg (fun z : Int => (z : ℚ)) h1
  have h2q : (0 : ℚ) ≤ ((n % dd : Int) : ℚ) := by exact_mod_cast h2
  linarith

theorem qval_lt_qfloor_succ (a : JsNum) : qval a < (qfloor a : ℚ) + 1 := by
  obtain ⟨⟨n, dd⟩, hd⟩ := a
  unfold qfloor qval
  simp only at hd ⊢
  rw [Int.fdiv_eq_ediv n (le_of_lt hd)]
  have h1 : dd * (n / dd) + n % dd = n := Int.ediv_add_emod n dd
  have h3 : n % dd < dd := Int.emod_lt_of_pos n hd
  have hdq : (0 : ℚ) < (dd : ℚ) := by exact_mod_cast hd
  rw [div_lt_iff hdq]
  have h1q : (dd : ℚ) * ((n / dd : Int) : ℚ) + ((n % dd : Int) : ℚ) = (n : ℚ) := by
    exact_mod_cast congrArg (fun z : Int => (z : ℚ)) h1
  have h3q : ((n % dd : Int) : ℚ) < (dd : ℚ) := by exact_mod_cast h3
  linarith

theorem fracDigits_char : ∀ (fuel : Nat) (f : JsNum), 0 ≤ qval f → qval f < 1 →
    ∀ c ∈ fracDigits fuel f, c.toNat < 58
  | 0, _, _, _ => by simp [fracDigits]
  | fuel + 1, f, h0, h1 => by
    intro c hc
    rw [fracDigits] at hc
    by_cases hz : qIsZero f
    · rw [if_pos hz] at hc
      cases hc
    · rw [if_neg hz] at hc
      have hgval : qval (qmul f (jn 10)) = qval f * 10 := by
        rw [qval_mul, qval_jn]; ring
      have hg0 : 0 ≤ qval (qmul f (jn 10)) := by rw [hgval]; nlinarith
      have hg10 : qval (qmul f (jn 10)) < 10 := by rw [hgval]; nlinarith
      have hfl0 : 0 ≤ qfloor (qmul f (jn 10)) := by
        by_contra hneg
        push_neg at hneg
        have hlt := qval_lt_qfloor_succ (qmul f (jn 10))
        have hint : qfloor (qmul f (jn 10)) ≤ -1 := by omega
        have : (qfloor (qmul f (jn 10)) : ℚ) ≤ -1 := by exact_mod_cast hint
        linarith
      have hfl9 : qfloor (qmul f (jn 10)) ≤ 9 := by
        by_contra hgt
        push_neg at hgt
        have hle := qfloor_le_qval (qmul f (jn 10))
        have : (10 : ℚ) ≤ (qfloor (qmul f (jn 10)) : ℚ) := by exact_mod_cast hgt
        linarith
      have hd9 : (qfloor (qmul f (jn 10))).toNat < 10 := by omega
      rcases List.mem_cons.mp hc with rfl | hc2
      · rw [digitChar_toNat hd9]
        omega
      · have hcast : (((qfloor (qmul f (jn 10))).toNat : Int) : ℚ) =
            ((qfloor (qmul f (jn 10)) : Int) : ℚ) := by
          exact_mod_cast congrArg (fun z : Int => (z : ℚ))
            (Int.toNat_of_nonneg hfl0)
        have hsub : qval (qsub (qmul f (jn 10))
            (jn ((qfloor (qmul f (jn 10))).toNat : Int))) =
            qval (qmul f (jn 10)) - ((qfloor (qmul f (jn 10)) : Int) : ℚ) := by
          rw [qval_sub, qval_jn, hcast]
        refine fracDigits_char fuel _ ?_ ?_ c hc2
        · rw [hsub]
          have := qfloor_le_qval (qmul f (jn 10))
          linarith
        · rw [hsub]
          have := qval_lt_qfloor_succ (qmul f (jn 10))
          linarith

theorem numStrNN_char (p : JsNum) : ∀ c ∈ numStrNN p, c.toNat < 58 := by
  intro c hc
  unfold numStrNN at hc
  rcases List.mem_append.mp hc with h | h
  · exact natStr_char _ c h
  · by_cases hi : qIsInt p
    · rw [if_pos hi] at h
      cases h
    · rw [if_neg hi] at h
      rcases List.mem_cons.mp h with rfl | h2
      · decide
      · have hsub : qval (qsub p (jn (qfloor p))) = qval p - (qfloor p : ℚ) := by
          rw [qval_sub, qval_jn]
        refine fracDigits_char 20 _ ?_ ?_ c h2
        · rw [hsub]
          have := qfloor_le_qval p
          linarith
        · rw [hsub]
          have := qval_lt_qfloor_succ p
          linarith

theorem numStr_char (q : JsNum) : ∀ c ∈ numStr q, c.toNat < 58 := by
  intro c hc
  unfold numStr at hc
  by_cases h : qlt q (jn 0)
  · rw [if_pos h] at hc
    rcases List.mem_cons.mp hc with rfl | h2
    · decide
    · exact numStrNN_char _ c h2
  · rw [if_neg h] at hc
    exact numStrNN_char _ c hc

theorem pad2_char (n : Nat) : ∀ c ∈ pad2 n, c.toNat < 58 := by
  intro c hc
  unfold pad2 at hc
  by_cases h : n < 10
  · rw [if_pos h] at hc
    rcases List.mem_cons.mp hc with rfl | h2
    · decide
    · exact natStr_char _ c h2
  · rw [if_neg h] at hc
    exact natStr_char _ c hc

theorem pdfDate_char (d : DateParts) : ∀ c ∈ pdfDate d, c.toNat < 97 := by
  intro c hc
  unfold pdfDate at hc
  simp only [List.append_assoc, List.mem_append] at hc
  rcases hc with h | h | h | h | h | h | h
  · have : ∀ c ∈ str "D:", c.toNat < 97 := by decide
    exact this c h
  · exact lt_trans (natStr_char _ c h) (by norm_num)
  · exact lt_trans (pad2_char _ c h) (by norm_num)
  · exact lt_trans (pad2_char _ c h) (by norm_num)
  · exact lt_trans (pad2_char _ c h) (by norm_num)
  · exact lt_trans (pad2_char _ c h) (by norm_num)
  · exact lt_trans (pad2_char _ c h) (by norm_num)

theorem joinSp_mem {c : Char} : ∀ (l : List Str), c ∈ joinSp l →
    (∃ x ∈ l, c ∈ x) ∨ c = ' '
  | [], h => by cases h
  | [x], h => Or.inl ⟨x, by simp, h⟩
  | x :: y :: rest, h => by
    rw [joinSp] at h
    rcases List.mem_append.mp h with h1 | h1
    · exact Or.inl ⟨x, by simp, h1⟩
    · rcases List.mem_cons.mp h1 with rfl | h2
      · exact Or.inr rfl
      · rcases joinSp_mem (y :: rest) h2 with ⟨z, hz, hcz⟩ | hsp
        · exact Or.inl ⟨z, List.mem_cons_of_mem x hz, hcz⟩
        · exact Or.inr hsp

theorem pageRefsStr_char (n : Nat) : ∀ c ∈ pageRefsStr n, c.toNat < 97 := by
  intro c hc
  rcases joinSp_mem _ hc with ⟨x, hx, hcx⟩ | rfl
  · rcases List.mem_map.mp hx with ⟨i, _, rfl⟩
    rcases List.mem_append.mp hcx with h | h
    · exact lt_trans (natStr_char _ c h) (by norm_num)
    · have : ∀ c ∈ str " 0 R", c.toNat < 97 := by decide
      exact this c h
  · decide

/-! ### Substring facts for the wrap pipeline -/

theorem partOf_refl (s : Str) : partOf s s := ⟨[], [], by simp⟩

theorem partOf_trans {a b c : Str} (h1 : partOf a b) (h2 : partOf b c) :
    partOf a c := by
  rcases h1 with ⟨u1, v1, rfl⟩
  rcases h2 with ⟨u2, v2, rfl⟩
  exact ⟨u2 ++ u1, v1 ++ v2, by simp⟩

theorem partOf_cons {w s : Str} (c : Char) (h : partOf w s) : partOf w (c :: s) := by
  rcases h with ⟨u, v, rfl⟩
  exact ⟨c :: u, v, by simp⟩

theorem partOf_of_pre {s t : Str} (h : ∃ v, t = s ++ v) : partOf s t := by
  rcases h with ⟨v, rfl⟩
  exact ⟨[], v, by simp⟩

theorem partOf_of_suffix {s t : Str} (h : ∃ u, t = u ++ s) : partOf s t := by
  rcases h with ⟨u, rfl⟩
  exact ⟨u, [], by simp⟩

theorem takeUnits_pre : ∀ (m : Nat) (s : Str), ∃ v, s = takeUnits m s ++ v
  | _, [] => ⟨[], rfl⟩
  | m, c :: cs => by
    rw [takeUnits]
    by_cases h : u16len c ≤ m
    · rw [if_pos h]
      rcases takeUnits_pre (m - u16len c) cs with ⟨v, hv⟩
      refine ⟨v, ?_⟩
      rw [List.cons_append]
      exact congrArg (c :: ·) hv
    · rw [if_neg h]
      exact ⟨c :: cs, rfl⟩

theorem dropUnits_suffix : ∀ (m : Nat) (s : Str), ∃ u, s = u ++ dropUnits m s
  | _, [] => ⟨[], rfl⟩
  | m, c :: cs => by
    rw [dropUnits]
    by_cases h0 : m = 0
    · rw [if_pos h0]
      exact ⟨[], rfl⟩
    · rw [if_neg h0]
      by_cases h : u16len c ≤ m
      · rw [if_pos h]
        rcases dropUnits_suffix (m - u16len c) cs with ⟨u, hu⟩
        refine ⟨c :: u, ?_⟩
        rw [List.cons_append]
        exact congrArg (c :: ·) hu
      · rw [if_neg h]
        exact ⟨[c], rfl⟩

theorem trim_partOf (s : Str) : partOf (trim s) s := by
  unfold trim
  refine ⟨s.takeWhile (fun c => isWs c),
    ((s.dropWhile (fun c => isWs c)).reverse.takeWhile (fun c => isWs c)).reverse, ?_⟩
  conv_lhs => rw [← List.takeWhile_append_dropWhile (fun c => isWs c) s]
  rw [List.append_assoc]
  congr 1
  conv_lhs => rw [← List.reverse_reverse (s.dropWhile (fun c => isWs c)),
    ← List.takeWhile_append_dropWhile (fun c => isWs c)
      (s.dropWhile (fun c => isWs c)).reverse]
  rw [List.reverse_append]

theorem splitWsGo_partOf : ∀ (fuel : Nat) (s w : Str), w ∈ splitWsGo fuel s →
    partOf w s
  | 0, s, w, h => absurd h (by cases s <;> simp [splitWsGo])
  | _ + 1, [], w, h => by cases h
  | fuel + 1, c :: cs, w, h => by
    rw [splitWsGo] at h
    by_cases hw : isWs c
    · rw [if_pos hw] at h
      exact partOf_cons c (splitWsGo_partOf fuel cs w h)
    · rw [if_neg hw] at h
      rcases List.mem_cons.mp h with rfl | h2
      · refine ⟨[], cs.dropWhile (fun d => !isWs d), ?_⟩
        simp only [List.nil_append, List.cons_append]
        exact congrArg (c :: ·) (List.takeWhile_append_dropWhile _ _).symm
      · have h3 := splitWsGo_partOf fuel (cs.dropWhile (fun d => !isWs d)) w h2
        exact partOf_trans h3 (partOf_cons c (partOf_of_suffix
          ⟨cs.takeWhile (fun d => !isWs d),
            (List.takeWhile_append_dropWhile _ _).symm⟩))

theorem splitWs_partOf {s w : Str} (h : w ∈ splitWs s) : partOf w s :=
  splitWsGo_partOf s.length s w h

theorem sepMatch_suffix {s rem : Str} (h : sepMatch s = some rem) :
    ∃ u, s = u ++ rem := by
  cases s with
  | nil => simp [sepMatch] at h
  | cons c rest =>
    simp only [sepMatch] at h
    by_cases hc : c = Char.ofNat 10
    · simp only [hc, if_true] at h
      cases hk : findNlDown rest (wsRunLen rest) with
      | none => rw [hk] at h; cases h
      | some k =>
        rw [hk] at h
        cases h
        refine ⟨c :: rest.take (k + 1), ?_⟩
        rw [List.cons_append]
        exact congrArg (c :: ·) (List.take_append_drop (k + 1) rest).symm
    · simp [hc] at h

theorem splitParasGo_partOf : ∀ (fuel : Nat) (cur s w : Str),
    w ∈ splitParasGo fuel cur s → partOf w (cur.reverse ++ s)
  | 0, cur, s, w, h => by
    simp only [splitParasGo, List.mem_singleton] at h
    subst h
    exact partOf_of_pre ⟨s, rfl⟩
  | fuel + 1, cur, [], w, h => by
    simp only [splitParasGo, List.mem_singleton] at h
    subst h
    exact partOf_of_pre ⟨[], by simp⟩
  | fuel + 1, cur, c :: rest, w, h => by
    rw [splitParasGo] at h
    cases hsep : sepMatch (c :: rest) with
    | some rem =>
      rw [hsep] at h
      rcases List.mem_cons.mp h with rfl | h2
      · exact partOf_of_pre ⟨c :: rest, rfl⟩
      · have h3 := splitParasGo_partOf fuel [] rem w h2
        simp only [List.reverse_nil, List.nil_append] at h3
        refine partOf_trans h3 ?_
        rcases sepMatch_suffix hsep with ⟨u, hu⟩
        exact ⟨cur.reverse ++ u, [], by rw [hu]; simp⟩
    | none =>
      rw [hsep] at h
      have h3 := splitParasGo_partOf fuel (c :: cur) rest w h
      simpa using h3

theorem splitParas_partOf {s w : Str} (h : w ∈ splitParas s) : partOf w s := by
  have := splitParasGo_partOf s.length [] s w h
  simpa using this

theorem chunkWordGo_partOf (m : Nat) : ∀ (fuel : Nat) (s x : Str),
    x ∈ chunkWordGo m fuel s → partOf x s
  | 0, s, x, h => absurd h (by cases s <;> simp [chunkWordGo])
  | _ + 1, [], x, h => by cases h
  | fuel + 1, c :: cs, x, h => by
    rw [chunkWordGo] at h
    by_cases hm : m = 0
    · rw [if_pos hm] at h
      cases h
    · rw [if_neg hm] at h
      rcases List.mem_cons.mp h with rfl | h2
      · exact partOf_of_pre (takeUnits_pre m (c :: cs))
      · exact partOf_trans (chunkWordGo_partOf m fuel _ x h2)
          (partOf_of_suffix (dropUnits_suffix m (c :: cs)))

theorem chunkWord_partOf {m : Nat} {s x : Str} (h : x ∈ chunkWord m s) :
    partOf x s := chunkWordGo_partOf m s.length s x h

/-! ### Escape-level safety -/

theorem escRawMP_append (a b : Str) : escRawMP (a ++ b) =
    escRawMP a ++ escRawMP b := by
  simp [escRawMP]

theorem escSafe_of_partOf {s t : Str} (h : partOf s t) (ht : escSafe t) :
    escSafe s := by
  rcases h with ⟨u, v, rfl⟩
  unfold escSafe at ht ⊢
  rw [escRawMP_append, escRawMP_append, encB_append, encB_append] at ht
  intro hocc
  exact ht (hasSeg_append_left _ _ _ (hasSeg_append_right _ _ _ hocc))

theorem escSafe_nil : escSafe [] := by decide

theorem escSafe_glue_space {a b : Str} (ha : escSafe a) (hb : escSafe b) :
    escSafe (a ++ ' ' :: b) := by
  unfold escSafe at ha hb ⊢
  rw [escRawMP_append, escRawMP_cons,
    show escCharMP ' ' = [' '] from by decide, encB_append]
  have h32 : encB (' ' :: escRawMP b) = 32 :: encB (escRawMP b) := by
    rw [encB_cons_ascii _ (by decide)]
    rfl
  rw [show ([' '] : Str) ++ escRawMP b = ' ' :: escRawMP b from rfl, h32]
  exact noSeg_bridge ha hb (by decide)

/-! ### Safety of the wrap pipeline -/

theorem wrapStep_safe (mcpl : Nat) (lines : List Str) (cur word : Str)
    (hl : ∀ l ∈ lines, escSafe l) (hc : escSafe cur) (hw : escSafe word) :
    (∀ l ∈ (wrapStep mcpl lines cur word).1, escSafe l) ∧
      escSafe (wrapStep mcpl lines cur word).2 := by
  have hcurw : escSafe (cur ++ (if cur ≠ [] then [' '] else []) ++ word) := by
    by_cases hne : cur ≠ []
    · rw [if_pos hne]
      have hx : cur ++ [' '] ++ word = cur ++ ' ' :: word := by simp
      rw [hx]
      exact escSafe_glue_space hc hw
    · rw [if_neg hne]
      push_neg at hne
      subst hne
      simpa using hw
  have hl1 : ∀ l ∈ (if cur ≠ [] then lines ++ [cur] else lines), escSafe l := by
    by_cases hne : cur ≠ []
    · rw [if_pos hne]
      intro l hl2
      rcases List.mem_append.mp hl2 with h | h
      · exact hl l h
      · simp only [List.mem_singleton] at h
        subst h
        exact hc
    · rw [if_neg hne]
      exact hl
  unfold wrapStep
  by_cases hfit : jsLen (cur ++ (if cur ≠ [] then [' '] else []) ++ word) ≤ mcpl
  · rw [if_pos hfit]
    exact ⟨hl, hcurw⟩
  · rw [if_neg hfit]
    by_cases hlong : mcpl < jsLen word
    · rw [if_pos hlong]
      refine ⟨?_, escSafe_nil⟩
      intro l hl2
      rcases List.mem_append.mp hl2 with h | h
      · exact hl1 l h
      · exact escSafe_of_partOf (chunkWord_partOf h) hw
    · rw [if_neg hlong]
      exact ⟨hl1, hw⟩

theorem wrapFold_safe (mcpl : Nat) : ∀ (ws : List Str) (st : List Str × Str),
    (∀ w ∈ ws, escSafe w) → (∀ l ∈ st.1, escSafe l) → escSafe st.2 →
    (∀ l ∈ (ws.foldl (fun st w => wrapStep mcpl st.1 st.2 w) st).1, escSafe l) ∧
      escSafe (ws.foldl (fun st w => wrapStep mcpl st.1 st.2 w) st).2
  | [], _, _, h1, h2 => ⟨h1, h2⟩
  | w :: ws, st, hws, h1, h2 => by
    rw [List.foldl_cons]
    have hstep := wrapStep_safe mcpl st.1 st.2 w h1 h2 (hws w (by simp))
    exact wrapFold_safe mcpl ws _ (fun x hx => hws x (by simp [hx]))
      hstep.1 hstep.2

theorem paraLines_safe (mcpl : Nat) (p : Str)
    (hws : ∀ w ∈ splitWs (trim p), escSafe w) :
    ∀ l ∈ paraLines mcpl p, escSafe l := by
  intro l hl
  simp only [paraLines] at hl
  have hfold := wrapFold_safe mcpl (splitWs (trim p)) ([], []) hws
    (by intro x hx; cases hx) escSafe_nil
  by_cases hne :
      ((splitWs (trim p)).foldl (fun st w => wrapStep mcpl st.1 st.2 w) ([], [])).2 ≠ []
  · rw [if_pos hne] at hl
    rcases List.mem_append.mp hl with h | h
    · exact hfold.1 l h
    · simp only [List.mem_singleton] at h
      subst h
      exact hfold.2
  · rw [if_neg hne] at hl
    exact hfold.1 l hl

theorem processTextToLines_safe (t : Str) (o : MPOptions) (ht : escSafe t) :
    ∀ l ∈ processTextToLines t o, escSafe l := by
  intro l hl
  simp only [processTextToLines] at hl
  rcases blankJoin_mem _ hl with ⟨g, hg, hlg⟩ | rfl
  · rcases List.mem_map.mp hg with ⟨p, hp, rfl⟩
    have hpt : partOf p t := splitParas_partOf (List.mem_of_mem_filter hp)
    refine paraLines_safe _ p ?_ l hlg
    intro w hw
    exact escSafe_of_partOf (partOf_trans (splitWs_partOf hw)
      (partOf_trans (trim_partOf p) hpt)) ht
  · exact escSafe_nil

/-! ### Safety of the content stream -/

/-- If no character of `s` encodes to byte `0x74`, the `trailer` bytes cannot
occur in `encB s`. -/
theorem noSeg_encB_of_char {s : Str}
    (h : ∀ c ∈ s, c.toNat < 0x10000 ∧ c.toNat % 256 ≠ 116) :
    noSeg (bts "trailer") (encB s) := by
  apply noSeg_of_no116
  intro hm
  rcases mem_encB hm with ⟨c, hc, u, hu, hbu⟩
  rcases h c hc with ⟨h1, h2⟩
  rw [u16units, if_pos h1] at hu
  simp only [List.mem_singleton] at hu
  subst hu
  exact h2 hbu.symm

theorem charOk_of_lt97 {c : Char} (h : c.toNat < 97) :
    c.toNat < 0x10000 ∧ c.toNat % 256 ≠ 116 := by
  constructor
  · omega
  · rw [Nat.mod_eq_of_lt (by omega)]
    omega

theorem escapeString_safe {l : Str} (h : escSafe l) :
    noSeg (bts "trailer") (encB (escapeString l)) := by
  intro hocc
  apply h
  rcases takeUnits_pre 1000 (escRawMP l) with ⟨v, hv⟩
  unfold escapeString at hocc
  rw [hv, encB_append]
  exact hasSeg_append_left _ _ _ hocc

theorem ccsGo_safe (o : MPOptions) : ∀ (lines : List Str) (y : JsNum) (first : Bool),
    (∀ l ∈ lines, escSafe l) →
    ∀ e ∈ ccsGo o lines y first, noSeg (bts "trailer") (encB e)
  | [], _, _, _ => by intro e he; cases he
  | line :: rest, y, first, hl => by
    intro e he
    rw [ccsGo] at he
    by_cases hskip : qlt y o.margin.bottom
    · rw [if_pos hskip] at he
      exact ccsGo_safe o rest y first (fun l h => hl l (by simp [h])) e he
    · rw [if_neg hskip] at he
      rcases List.mem_cons.mp he with rfl | he2
      · cases first with
        | true =>
          rw [if_pos rfl]
          apply noSeg_encB_of_char
          intro c hc
          simp only [List.mem_append, List.mem_cons] at hc
          rcases hc with (h1 | h1 | h1) | h1
          · exact charOk_of_lt97 (lt_trans (numStr_char _ c h1) (by norm_num))
          · subst h1
            decide
          · exact charOk_of_lt97 (lt_trans (numStr_char _ c h1) (by norm_num))
          · exact (by decide :
              ∀ c ∈ str " Td", c.toNat < 0x10000 ∧ c.toNat % 256 ≠ 116) c h1
        | false =>
          rw [if_neg (by simp : ¬ (false = true))]
          apply noSeg_encB_of_char
          intro c hc
          simp only [List.mem_append] at hc
          rcases hc with (h1 | h1) | h1
          · exact (by decide :
              ∀ c ∈ str "0 -", c.toNat < 0x10000 ∧ c.toNat % 256 ≠ 116) c h1
          · exact charOk_of_lt97 (lt_trans (numStr_char _ c h1) (by norm_num))
          · exact (by decide :
              ∀ c ∈ str " Td", c.toNat < 0x10000 ∧ c.toNat % 256 ≠ 116) c h1
      · rcases List.mem_cons.mp he2 with rfl | he3
        · have hre : ('(' :: escapeString line ++ str ") Tj") =
              '(' :: (escapeString line ++ str ") Tj") := by simp
          rw [hre, encB_cons_ascii _ (by decide), encB_append]
          refine noSeg_cons_safe (by decide) (by decide) ?_
          refine noSeg_glue (escapeString_safe (hl line (by simp))) (by decide) ?_
          exact hdOk_of_head (by decide :
            (encB (str ") Tj")).head? = some 41) (by decide)
        · exact ccsGo_safe o rest (qsub y o.lineHeight) false
            (fun l h => hl l (by simp [h])) e he3

/-- Occurrence-freedom lifts over `join('\n')`: the pattern contains no
newline byte, so an occurrence cannot straddle a separator. -/
theorem noSeg_joinNL : ∀ (L : List Str),
    (∀ x ∈ L, noSeg (bts "trailer") (encB x)) →
    noSeg (bts "trailer") (encB (joinNL L))
  | [], _ => by decide
  | [x], h => by
    rw [show joinNL [x] = x from rfl]
    exact h x (by simp)
  | x :: y :: rest, h => by
    rw [joinNL, encB_append, encB_cons_ascii _ (by decide)]
    exact noSeg_bridge (h x (by simp))
      (noSeg_joinNL (y :: rest) (fun z hz => h z (by simp [hz]))) (by decide)

theorem createContentStream_safe (pls : List Str) (o : MPOptions)
    (hl : ∀ l ∈ pls, escSafe l) :
    noSeg (bts "trailer") (encB (createContentStream pls o)) := by
  unfold createContentStream
  apply noSeg_joinNL
  intro x hx
  rcases List.mem_append.mp hx with h1 | h1
  · rcases List.mem_append.mp h1 with h2 | h2
    · rcases List.mem_cons.mp h2 with rfl | h3
      · decide
      · rcases List.mem_cons.mp h3 with rfl | h4
        · apply noSeg_encB_of_char
          intro c hc
          simp only [List.mem_append] at hc
          rcases hc with (h5 | h5) | h5
          · exact (by decide :
              ∀ c ∈ str "/F1 ", c.toNat < 0x10000 ∧ c.toNat % 256 ≠ 116) c h5
          · exact charOk_of_lt97 (lt_trans (numStr_char _ c h5) (by norm_num))
          · exact (by decide :
              ∀ c ∈ str " Tf", c.toNat < 0x10000 ∧ c.toNat % 256 ≠ 116) c h5
        · cases h4
    · exact ccsGo_safe o pls _ true hl x h2
  · rcases List.mem_cons.mp h1 with rfl | h2
    · decide
    · cases h2

/-! ### Safety of the document objects -/

theorem noSeg_append_lastByte (k : Nat) {x y : List Nat}
    (hx : noSeg (bts "trailer") x) (hy : noSeg (bts "trailer") y)
    (hk : x.getLast? = some k) (hkp : k ∉ bts "trailer") :
    noSeg (bts "trailer") (x ++ y) :=
  noSeg_append_lastSafe hx hy (fun b hb => by
    rw [hk] at hb
    cases hb
    exact hkp)

theorem hdOk_append_left {x y : List Nat} (hne : x ≠ []) (hx : hdOk x) :
    hdOk (x ++ y) := by
  cases x with
  | nil => exact absurd rfl hne
  | cons a l =>
    intro b hb
    simp only [List.cons_append, List.head?_cons, Option.some.injEq] at hb
    subst hb
    exact hx a rfl

theorem natStr_small (n : Nat) : ∀ b ∈ encB (natStr n), b < 97 :=
  encB_bound (by norm_num) (fun c hc => lt_trans (natStr_char n c hc) (by norm_num))

theorem numStr_small (q : JsNum) : ∀ b ∈ encB (numStr q), b < 97 :=
  encB_bound (by norm_num) (fun c hc => lt_trans (numStr_char q c hc) (by norm_num))

theorem pdfDate_small (d : DateParts) : ∀ b ∈ encB (pdfDate d), b < 97 :=
  encB_bound (by norm_num) (pdfDate_char d)

theorem pageRefsStr_small (n : Nat) : ∀ b ∈ encB (pageRefsStr n), b < 97 :=
  encB_bound (by norm_num) (pageRefsStr_char n)

theorem objContent_safe {obj : PdfObj}
    (h : noSeg (bts "trailer") (encB obj.content)) :
    noSeg (bts "trailer") (encB (objContent obj)) := by
  unfold objContent
  simp only [List.append_assoc]
  simp only [encB_append]
  refine noSeg_glue (noSeg_of_small (natStr_small obj.id)) ?_ ?_
  · refine noSeg_append_lastByte 10 (by decide) ?_ (by decide) (by decide)
    exact noSeg_glue h (by decide) (hdOk_of_head (by decide :
      (encB (str "\nendobj\n")).head? = some 10) (by decide))
  · exact hdOk_append_left (by decide)
      (hdOk_of_head (by decide : (encB (str " 0 obj\n")).head? = some 32) (by decide))

theorem pagesObjContent_safe (n : Nat) :
    noSeg (bts "trailer") (encB (pagesObj n).content) := by
  show noSeg (bts "trailer") (encB (str "<<\n/Type /Pages\n/Kids [" ++
    pageRefsStr n ++ str "]\n/Count " ++ natStr n ++ str "\n>>"))
  simp only [List.append_assoc]
  simp only [encB_append]
  refine noSeg_append_lastByte 91 (by decide) ?_ (by decide) (by decide)
  refine noSeg_glue (noSeg_of_small (pageRefsStr_small n)) ?_
    (hdOk_append_left (by decide)
      (hdOk_of_head (by decide : (encB (str "]\n/Count ")).head? = some 93)
        (by decide)))
  refine noSeg_append_lastByte 32 (by decide) ?_ (by decide) (by decide)
  exact noSeg_glue (noSeg_of_small (natStr_small n)) (by decide)
    (hdOk_of_head (by decide : (encB (str "\n>>")).head? = some 10) (by decide))

theorem pageObjContent_safe (o : MPOptions) (fr cid : Nat) :
    noSeg (bts "trailer") (encB (pageObjContent o fr cid)) := by
  unfold pageObjContent
  simp only [List.append_assoc, List.cons_append]
  simp only [encB_append]
  rw [encB_cons_ascii _ (by decide)]
  simp only [encB_append]
  refine noSeg_append_lastByte 32 (by decide) ?_ (by decide) (by decide)
  refine noSeg_glue (noSeg_of_small (numStr_small o.pageWidth)) ?_ ?_
  · refine noSeg_cons_safe (by decide) (by decide) ?_
    refine noSeg_glue (noSeg_of_small (numStr_small o.pageHeight)) ?_
      (hdOk_append_left (by decide)
        (hdOk_of_head (by decide :
          (encB (str "]\n/Resources <<\n  /Font <<\n    /F1 ")).head? = some 93)
          (by decide)))
    refine noSeg_append_lastByte 32 (by decide) ?_ (by decide) (by decide)
    refine noSeg_glue (noSeg_of_small (natStr_small fr)) ?_
      (hdOk_append_left (by decide)
        (hdOk_of_head (by decide :
          (encB (str " 0 R\n  >>\n>>\n/Contents ")).head? = some 32) (by decide)))
    refine noSeg_append_lastByte 32 (by decide) ?_ (by decide) (by decide)
    exact noSeg_glue (noSeg_of_small (natStr_small cid)) (by decide)
      (hdOk_of_head (by decide : (encB (str " 0 R\n>>")).head? = some 32)
        (by decide))
  · intro b hb
    simp only [List.head?_cons, Option.some.injEq] at hb
    subst hb
    decide

theorem contentObjContent_safe (cs : Str)
    (h : noSeg (bts "trailer") (encB cs)) :
    noSeg (bts "trailer") (encB (contentObjContent cs)) := by
  unfold contentObjContent
  simp only [List.append_assoc]
  simp only [encB_append]
  refine noSeg_append_lastByte 32 (by decide) ?_ (by decide) (by decide)
  refine noSeg_glue (noSeg_of_small (natStr_small (jsLen cs))) ?_
    (hdOk_append_left (by decide)
      (hdOk_of_head (by decide : (encB (str "\n>>\nstream\n")).head? = some 10)
        (by decide)))
  refine noSeg_append_lastByte 10 (by decide) ?_ (by decide) (by decide)
  exact noSeg_glue h (by decide)
    (hdOk_of_head (by decide : (encB (str "\nendstream")).head? = some 10)
      (by decide))

theorem infoObjContent_safe (n : Nat) (title : Str) (d : DateParts)
    (hti : escSafe title) :
    noSeg (bts "trailer") (encB (infoObj n title d).content) := by
  show noSeg (bts "trailer") (encB (str "<<\n/Title (" ++ escapeString title ++
    str ")\n/Producer (Enhanced PDF Generator v1.0.0)\n/Creator (Enhanced PDF Generator)\n/CreationDate (" ++
    pdfDate d ++ str ")\n/ModDate (" ++ pdfDate d ++ str ")\n>>"))
  simp only [List.append_assoc]
  simp only [encB_append]
  refine noSeg_append_lastByte 40 (by decide) ?_ (by decide) (by decide)
  refine noSeg_glue (escapeString_safe hti) ?_
    (hdOk_append_left (by decide)
      (hdOk_of_head (by decide :
        (encB (str ")\n/Producer (Enhanced PDF Generator v1.0.0)\n/Creator (Enhanced PDF Generator)\n/CreationDate (")).head? =
          some 41) (by decide)))
  refine noSeg_append_lastByte 40 (by decide) ?_ (by decide) (by decide)
  refine noSeg_glue (noSeg_of_small (pdfDate_small d)) ?_
    (hdOk_append_left (by decide)
      (hdOk_of_head (by decide : (encB (str ")\n/ModDate (")).head? = some 41)
        (by decide)))
  refine noSeg_append_lastByte 40 (by decide) ?_ (by decide) (by decide)
  exact noSeg_glue (noSeg_of_small (pdfDate_small d)) (by decide)
    (hdOk_of_head (by decide : (encB (str ")\n>>")).head? = some 41) (by decide))

theorem mpFold_shape (pages : List (List Str)) (o : MPOptions) :
    ∀ (ps : List (List Str)) (st : List PdfObj × Nat) (x : PdfObj),
      x ∈ (ps.foldl (mpPageStep pages o) st).1 →
      x ∈ st.1 ∨
        (∃ fr cid, x = ⟨cid, pageObjContent o fr (cid + 1)⟩) ∨
        (∃ cid pl, pl ∈ ps ∧ x = ⟨cid, contentObjContent (createContentStream pl o)⟩)
  | [], _, x, hx => Or.inl hx
  | q :: qs, st, x, hx => by
    rw [List.foldl_cons] at hx
    rcases mpFold_shape pages o qs _ x hx with h | h | h
    · unfold mpPageStep at h
      rcases List.mem_append.mp h with h2 | h2
      · exact Or.inl h2
      · rcases List.mem_cons.mp h2 with rfl | h3
        · exact Or.inr (Or.inl ⟨st.1.length + pages.length * 2 + 1, st.2, rfl⟩)
        · rcases List.mem_cons.mp h3 with rfl | h4
          · exact Or.inr (Or.inr ⟨st.2 + 1, q, by simp, rfl⟩)
          · cases h4
    · exact Or.inr (Or.inl h)
    · rcases h with ⟨cid, pl, hpl, hx2⟩
      exact Or.inr (Or.inr ⟨cid, pl, by simp [hpl], hx2⟩)

theorem chunkListGo_mem {α : Type} (m : Nat) : ∀ (fuel : Nat) (s : List α)
    (pl : List α), pl ∈ chunkListGo m fuel s → ∀ x ∈ pl, x ∈ s
  | 0, s, pl, h => absurd h (by cases s <;> simp [chunkListGo])
  | _ + 1, [], pl, h => by cases h
  | fuel + 1, c :: cs, pl, h => by
    rw [chunkListGo] at h
    by_cases hm : m = 0
    · rw [if_pos hm] at h
      cases h
    · rw [if_neg hm] at h
      rcases List.mem_cons.mp h with rfl | h2
      · exact fun x hx => List.mem_of_mem_take hx
      · exact fun x hx =>
          List.mem_of_mem_drop (chunkListGo_mem m fuel _ pl h2 x hx)

theorem pagesOf_mem {lines : List Str} {o : MPOptions} {pl : List Str}
    (h : pl ∈ pagesOf lines o) : ∀ l ∈ pl, l ∈ lines ∨ l = [] := by
  unfold pagesOf at h
  by_cases he : (chunkList (computedLpp o).toNat lines).isEmpty
  · rw [if_pos he] at h
    simp only [List.mem_singleton] at h
    subst h
    intro l hl
    simp only [List.mem_singleton] at hl
    exact Or.inr hl
  · rw [if_neg he] at h
    exact fun l hl => Or.inl (chunkListGo_mem _ _ _ pl h l hl)

theorem createPDFDocument_objs_safe (lines : List Str) (title : Str)
    (o : MPOptions) (d : DateParts)
    (hl : ∀ l ∈ lines, escSafe l) (hti : escSafe title) :
    ∀ obj ∈ (createPDFDocument lines title o d).1,
      noSeg (bts "trailer") (encB (objContent obj)) := by
  intro obj hobj
  have hpl : ∀ pl ∈ pagesOf lines o, ∀ l ∈ pl, escSafe l := by
    intro pl hpl2 l hl2
    rcases pagesOf_mem hpl2 l hl2 with h | rfl
    · exact hl l h
    · exact escSafe_nil
  unfold createPDFDocument at hobj
  rcases List.mem_append.mp hobj with h1 | h1
  · unfold mpPageObjs at h1
    rcases mpFold_shape _ o _ _ obj h1 with h | h | h
    · rcases List.mem_cons.mp h with rfl | h2
      · exact objContent_safe (by decide)
      · rcases List.mem_cons.mp h2 with rfl | h3
        · exact objContent_safe (pagesObjContent_safe _)
        · cases h3
    · rcases h with ⟨fr, cid, rfl⟩
      exact objContent_safe (pageObjContent_safe o fr (cid + 1))
    · rcases h with ⟨cid, pl, hpl2, rfl⟩
      exact objContent_safe (contentObjContent_safe _
        (createContentStream_safe pl o (hpl pl hpl2)))
  · rcases List.mem_cons.mp h1 with rfl | h2
    · refine objContent_safe ?_
      show noSeg (bts "trailer")
        (encB (str "<<\n/Type /Font\n/Subtype /Type1\n/BaseFont /Helvetica\n>>"))
      decide
    · rcases List.mem_cons.mp h2 with rfl | h3
      · exact objContent_safe (infoObjContent_safe _ title d hti)
      · cases h3

/-! ### Buffer assembly facts for the validator -/

theorem hasSeg_of_middle {α : Type} {p s x m y : List α}
    (hs : s = x ++ m ++ y) (hm : hasSeg p m) : hasSeg p s := by
  subst hs
  exact hasSeg_append_left _ _ _ (hasSeg_append_right _ _ _ hm)

theorem hasSeg_encB_left {p : List Nat} {x y : Str} (h : hasSeg p (encB x)) :
    hasSeg p (encB (x ++ y)) := by
  rw [encB_append]
  exact hasSeg_append_left _ _ _ h

theorem hasSeg_encB_right {p : List Nat} {x y : Str} (h : hasSeg p (encB y)) :
    hasSeg p (encB (x ++ y)) := by
  rw [encB_append]
  exact hasSeg_append_right _ _ _ h

theorem hasSeg_buildPDFFile_of_mem {objs : List PdfObj} {infoId : Nat}
    {p : List Nat} {e : Str} (he : e ∈ mpLines objs infoId)
    (hp : hasSeg p (encB e)) : hasSeg p (buildPDFFile objs infoId) := by
  rcases joinNL_mem_split _ e he with ⟨X, Y, hXY⟩
  unfold buildPDFFile
  rw [hXY, encB_append, encB_append]
  exact hasSeg_of_middle rfl hp

theorem objContent_mem_mpLines {objs : List PdfObj} {infoId : Nat} {obj : PdfObj}
    (h : obj ∈ objs) : objContent obj ∈ mpLines objs infoId := by
  unfold mpLines
  simp only [List.mem_append]
  exact Or.inl (Or.inl (Or.inl (Or.inr (List.mem_map_of_mem objContent h))))

theorem typePages_in_pagesObj (n : Nat) :
    hasSeg (bts "/Type /Pages") (encB (objContent (pagesObj n))) := by
  show hasSeg (bts "/Type /Pages") (encB (natStr 2 ++ str " 0 obj\n" ++
    (str "<<\n/Type /Pages\n/Kids [" ++ pageRefsStr n ++ str "]\n/Count " ++
      natStr n ++ str "\n>>") ++ str "\nendobj\n"))
  exact hasSeg_encB_left (hasSeg_encB_right (hasSeg_encB_left (hasSeg_encB_left
    (hasSeg_encB_left (hasSeg_encB_left (by decide))))))

theorem typePage_in_pagesObj (n : Nat) :
    hasSeg (bts "/Type /Page") (encB (objContent (pagesObj n))) := by
  show hasSeg (bts "/Type /Page") (encB (natStr 2 ++ str " 0 obj\n" ++
    (str "<<\n/Type /Pages\n/Kids [" ++ pageRefsStr n ++ str "]\n/Count " ++
      natStr n ++ str "\n>>") ++ str "\nendobj\n"))
  exact hasSeg_encB_left (hasSeg_encB_right (hasSeg_encB_left (hasSeg_encB_left
    (hasSeg_encB_left (hasSeg_encB_left (by decide))))))

theorem catalogObj_mem_doc (lines : List Str) (title : Str) (o : MPOptions)
    (d : DateParts) : catalogObj ∈ (createPDFDocument lines title o d).1 := by
  unfold createPDFDocument
  exact List.mem_append_left _ (mpFold_mono _ o _ _ _ (by simp))

theorem pagesObj_mem_doc (lines : List Str) (title : Str) (o : MPOptions)
    (d : DateParts) :
    pagesObj (pagesOf lines o).length ∈ (createPDFDocument lines title o d).1 := by
  unfold createPDFDocument
  exact List.mem_append_left _ (mpFold_mono _ o _ _ _ (by simp))

/-! ### Length lower bound -/

theorem length_le_jsLen (s : Str) : s.length ≤ jsLen s := by
  induction s with
  | nil => simp [jsLen, codeUnits]
  | cons c cs ih =>
    rw [jsLen_cons]
    have : 1 ≤ u16len c := by
      unfold u16len
      by_cases h : c.toNat < 0x10000 <;> simp [h]
    simp only [List.length_cons]
    omega

theorem joinNL_length_ge : ∀ L : List Str,
    (L.map List.length).sum ≤ (joinNL L).length
  | [] => by simp [joinNL]
  | [x] => by simp [joinNL]
  | x :: y :: rest => by
    rw [joinNL]
    have h := joinNL_length_ge (y :: rest)
    simp only [List.map_cons, List.sum_cons, List.length_append,
      List.length_cons] at h ⊢
    omega

theorem padTen_len (s : Str) : 10 ≤ (padTenZeros s).length := by
  unfold padTenZeros
  rw [List.length_append, List.length_replicate]
  omega

theorem sum_map_ge {α : Type} (k : Nat) (f : α → Nat) :
    ∀ l : List α, (∀ x ∈ l, k ≤ f x) → k * l.length ≤ (l.map f).sum
  | [], _ => by simp
  | x :: xs, h => by
    simp only [List.map_cons, List.sum_cons, List.length_cons]
    have h1 := h x (by simp)
    have h2 := sum_map_ge k f xs (fun z hz => h z (by simp [hz]))
    rw [Nat.mul_succ]
    omega

theorem posFold_length : ∀ (objs : List PdfObj) (st : List Nat × Nat),
    ((objs.foldl (fun (st : List Nat × Nat) obj =>
      (st.1 ++ [st.2], st.2 + jsLen (objContent obj))) st).1).length =
      st.1.length + objs.length
  | [], _ => by simp
  | o :: os, st => by
    rw [List.foldl_cons, posFold_length os]
    simp only [List.length_append, List.length_cons, List.length_nil]
    omega

theorem mpPositions_length (objs : List PdfObj) :
    (mpPositions objs).length = objs.length := by
  unfold mpPositions
  rw [posFold_length]
  simp

theorem mpFold_length (pages : List (List Str)) (o : MPOptions) :
    ∀ (ps : List (List Str)) (st : List PdfObj × Nat),
      ((ps.foldl (mpPageStep pages o) st).1).length = st.1.length + 2 * ps.length
  | [], _ => by simp
  | q :: qs, st => by
    rw [List.foldl_cons, mpFold_length pages o qs]
    unfold mpPageStep
    simp only [List.length_append, List.length_cons]
    simp
    omega

theorem pagesOf_pos (lines : List Str) (o : MPOptions) :
    1 ≤ (pagesOf lines o).length := by
  unfold pagesOf
  by_cases he : (chunkList (computedLpp o).toNat lines).isEmpty
  · rw [if_pos he]
    simp
  · rw [if_neg he]
    have : chunkList (computedLpp o).toNat lines ≠ [] := by
      intro h
      exact he (by simp [h])
    have := List.length_pos.mpr this
    omega

theorem doc_objs_ge6 (lines : List Str) (title : Str) (o : MPOptions)
    (d : DateParts) : 6 ≤ (createPDFDocument lines title o d).1.length := by
  unfold createPDFDocument
  simp only [List.length_append]
  unfold mpPageObjs
  rw [mpFold_length]
  have := pagesOf_pos lines o
  simp only [List.length_cons, List.length_nil]
  omega

theorem buildPDFFile_len_ge (objs : List PdfObj) (infoId : Nat)
    (h6 : 6 ≤ objs.length) :
    100 ≤ (buildPDFFile objs infoId).length := by
  unfold buildPDFFile
  rw [length_encB]
  have hstep1 := length_le_jsLen (joinNL (mpLines objs infoId))
  have hstep2 := joinNL_length_ge (mpLines objs infoId)
  have hsum : 19 * objs.length ≤ ((mpLines objs infoId).map List.length).sum := by
    unfold mpLines
    simp only [List.map_append, List.sum_append, List.map_map]
    have h19 : ∀ p ∈ mpPositions objs,
        19 ≤ (List.length ∘ fun p => padTenZeros (natStr p) ++ str " 00000 n ") p := by
      intro p _
      simp only [Function.comp_apply, List.length_append]
      have h10 := padTen_len (natStr p)
      have h9 : (str " 00000 n ").length = 9 := by decide
      omega
    have hE := sum_map_ge 19 _ (mpPositions objs) h19
    rw [mpPositions_length] at hE
    omega
  omega

/-! ### The xref-before-trailer ordering -/

theorem encB_nl_cons (s : Str) : encB (Char.ofNat 10 :: s) = 10 :: encB s := by
  rw [encB_cons_ascii _ (by decide),
    show (Char.ofNat 10).toNat % 256 = 10 from by decide]

/-- Every occurrence of `trailer` in `A ++ 'x' :: W` with a `trailer`-free `A`
starts strictly after the `'x'`. -/
theorem trailer_occ_lower {A W : List Nat} {i : Nat}
    (hA : noSeg (bts "trailer") A)
    (h : segAt (bts "trailer") (A ++ 120 :: W) i) : A.length + 1 ≤ i := by
  rcases segAt_append_cases h with hin | ⟨hle, hin⟩ | ⟨h1, h2⟩
  · exact absurd ⟨i, hin⟩ hA
  · rcases Nat.lt_or_ge i (A.length + 1) with hlt | hge
    · have hi0 : i - A.length = 0 := by omega
      rw [hi0] at hin
      rcases hin with ⟨t, ht⟩
      simp only [List.drop_zero] at ht
      rw [show bts "trailer" = (116 : Nat) :: [114, 97, 105, 108, 101, 114]
        from by decide, List.cons_append] at ht
      injection ht with hh _
      exact absurd hh (by decide)
    · exact hge
  · have hb : (A ++ 120 :: W).get? A.length = some 120 := by
      rw [List.get?_append_right (le_refl _)]
      simp
    have hc := mem_of_seg_cover h (le_of_lt h1)
      (by
        have h7 : (bts "trailer").length = 7 := by decide
        omega) hb
    exact absurd hc (by decide)

/-- The validator accepts every multi-page document whose lines and title are
`trailer`-free after escaping. -/
theorem validate_buildPDF (lines : List Str) (title : Str) (o : MPOptions)
    (d : DateParts) (hl : ∀ l ∈ lines, escSafe l) (hti : escSafe title) :
    validatePDFStructure (buildPDFFile (createPDFDocument lines title o d).1
      (createPDFDocument lines title o d).2) = true := by
  set objs := (createPDFDocument lines title o d).1 with hobjs
  set infoId := (createPDFDocument lines title o d).2 with hinfo
  have hsafe : ∀ obj ∈ objs, noSeg (bts "trailer") (encB (objContent obj)) := by
    rw [hobjs]
    exact createPDFDocument_objs_safe lines title o d hl hti
  have hmemT : str "trailer" ∈ mpLines objs infoId := by unfold mpLines; simp
  have hmemS : str "startxref" ∈ mpLines objs infoId := by unfold mpLines; simp
  have hmemE : str "%%EOF" ∈ mpLines objs infoId := by unfold mpLines; simp
  have hmemX : str "xref" ∈ mpLines objs infoId := by unfold mpLines; simp
  have h100 : 100 ≤ (buildPDFFile objs infoId).length :=
    buildPDFFile_len_ge objs infoId
      (by rw [hobjs]; exact doc_objs_ge6 lines title o d)
  have hEOF : hasSeg (bts "%%EOF") (buildPDFFile objs infoId) :=
    hasSeg_buildPDFFile_of_mem hmemE (by decide)
  have hXr : hasSeg (bts "xref") (buildPDFFile objs infoId) :=
    hasSeg_buildPDFFile_of_mem hmemX (by decide)
  have hTr : hasSeg (bts "trailer") (buildPDFFile objs infoId) :=
    hasSeg_buildPDFFile_of_mem hmemT (by decide)
  have hSx : hasSeg (bts "startxref") (buildPDFFile objs infoId) :=
    hasSeg_buildPDFFile_of_mem hmemS (by decide)
  have hCat : hasSeg (bts "/Type /Catalog") (buildPDFFile objs infoId) :=
    hasSeg_buildPDFFile_of_mem
      (objContent_mem_mpLines (by rw [hobjs]; exact catalogObj_mem_doc lines title o d))
      (by decide)
  have hPgs : hasSeg (bts "/Type /Pages") (buildPDFFile objs infoId) :=
    hasSeg_buildPDFFile_of_mem
      (objContent_mem_mpLines (by rw [hobjs]; exact pagesObj_mem_doc lines title o d))
      (typePages_in_pagesObj _)
  have hPg : hasSeg (bts "/Type /Page") (buildPDFFile objs infoId) :=
    hasSeg_buildPDFFile_of_mem
      (objContent_mem_mpLines (by rw [hobjs]; exact pagesObj_mem_doc lines title o d))
      (typePage_in_pagesObj _)
  -- split the line list at the literal `xref` line
  have hsplit2 : mpLines objs infoId =
      (str "%PDF-1.4" :: str "%âãÏÓ" :: objs.map objContent) ++
        (str "xref" :: ((str "0 " ++ natStr (objs.length + 1)) ::
          str "0000000000 65535 f " ::
          ((mpPositions objs).map
            (fun p => padTenZeros (natStr p) ++ str " 00000 n ") ++
            [str "trailer", str "<<", str "/Size " ++ natStr (objs.length + 1),
              str "/Root 1 0 R", str "/Info " ++ natStr infoId ++ str " 0 R",
              str ">>", str "startxref", natStr (mpXrefPos objs), str "%%EOF"]))) := by
    unfold mpLines mpHeader
    simp [List.append_assoc]
  set L0 := str "%PDF-1.4" :: str "%âãÏÓ" :: objs.map objContent with hL0
  set R0 := (str "0 " ++ natStr (objs.length + 1)) ::
    str "0000000000 65535 f " ::
    ((mpPositions objs).map (fun p => padTenZeros (natStr p) ++ str " 00000 n ") ++
      [str "trailer", str "<<", str "/Size " ++ natStr (objs.length + 1),
        str "/Root 1 0 R", str "/Info " ++ natStr infoId ++ str " 0 R",
        str ">>", str "startxref", natStr (mpXrefPos objs), str "%%EOF"]) with hR0
  have hbufAB : buildPDFFile objs infoId =
      (encB (joinNL L0) ++ [10]) ++ (bts "xref" ++ (10 :: encB (joinNL R0))) := by
    unfold buildPDFFile
    rw [hsplit2, joinNL_append L0 (str "xref" :: R0) (by rw [hL0]; simp) (by simp),
      joinNL_cons (str "xref") R0 (by rw [hR0]; simp),
      encB_append, encB_nl_cons, encB_append, encB_nl_cons]
    simp [bts, str]
  have hPDF : sw (bts "%PDF-") (buildPDFFile objs infoId) := by
    unfold buildPDFFile
    rw [hsplit2, hL0]
    rw [show (str "%PDF-1.4" :: str "%âãÏÓ" :: objs.map objContent) ++
        (str "xref" :: R0) =
      str "%PDF-1.4" :: (str "%âãÏÓ" :: objs.map objContent ++ (str "xref" :: R0))
      from by simp]
    rw [joinNL_cons _ _ (by simp), encB_append, encB_nl_cons]
    rw [show encB (str "%PDF-1.4") = bts "%PDF-" ++ [49, 46, 52] from by decide,
      List.append_assoc]
    exact sw_append _ _
  have hA : noSeg (bts "trailer") (encB (joinNL L0) ++ [10]) := by
    refine noSeg_glue (noSeg_joinNL L0 ?_) (by decide)
      (hdOk_of_head rfl (by decide))
    intro x hx
    rw [hL0] at hx
    rcases List.mem_cons.mp hx with rfl | hx2
    · decide
    · rcases List.mem_cons.mp hx2 with rfl | hx3
      · decide
      · rcases List.mem_map.mp hx3 with ⟨obj, hobj, rfl⟩
        exact hsafe obj hobj
  have hsegX : segAt (bts "xref") (buildPDFFile objs infoId)
      (encB (joinNL L0) ++ [10]).length := by
    rw [hbufAB]
    refine ⟨10 :: encB (joinNL R0), ?_⟩
    rw [List.drop_left]
  rcases firstIdx_le_of_segAt hsegX with ⟨jx, hjxle, hfiX⟩
  cases hfiT : firstIdx (bts "trailer") (buildPDFFile objs infoId) with
  | none => exact absurd hTr ((firstIdx_eq_none_iff _ _).mp hfiT)
  | some jt =>
    have hocc := (firstIdx_spec _ _ jt hfiT).1
    have hb3 : buildPDFFile objs infoId =
        (encB (joinNL L0) ++ [10]) ++ 120 ::
          ([114, 101, 102] ++ (10 :: encB (joinNL R0))) := by
      rw [hbufAB, show bts "xref" = (120 : Nat) :: [114, 101, 102] from by decide]
      simp
    rw [hb3] at hocc
    have hlow : (encB (joinNL L0) ++ [10]).length + 1 ≤ jt :=
      trailer_occ_lower hA hocc
    have hord : jx < jt := by omega
    unfold validatePDFStructure
    simp only [Bool.and_eq_true, decide_eq_true_eq]
    refine ⟨⟨⟨⟨⟨⟨⟨⟨⟨h100, hPDF⟩, hEOF⟩, hCat⟩, hPgs⟩, hPg⟩, hXr⟩, hTr⟩, hSx⟩, ?_⟩
    rw [hfiX, hfiT]
    exact decide_eq_true hord

/-- Claim C5 (amended): the validator round-trip holds for non-empty inputs
within the size limit whose escaped text and escaped sanitized title are free
of the byte string `trailer`, and whose sanitized geometry yields positive
per-line and per-page limits (outside that region the source's wrap and
pagination loops do not terminate).  For such inputs the render entry point
returns a buffer and `_validatePDFStructure` accepts it: length ≥ 100, `%PDF-`
header, `%%EOF`, both `/Type` dictionaries, `xref`, `trailer`, `startxref`
present, and the first `xref` strictly precedes the first `trailer`.  The
restriction is necessary: an input containing the word `trailer` defeats the
`indexOf`-based ordering check (see the counterexample). -/
theorem claim_C5 (cfg : GenConfig) (t : Str) (opts : RawOptions) (d : DateParts)
    (h0 : 0 < jsLen t) (hsz : jsLen t ≤ cfg.maxContentSize)
    (hmc : 1 ≤ computedMcpl (sanitizeOptions opts cfg))
    (hlp : 1 ≤ computedLpp (sanitizeOptions opts cfg))
    (ht : escSafe t) (hti : escSafe (sanitizeOptions opts cfg).title) :
    ∃ buf, generatePDFFromText cfg false (some t) opts d = Except.ok buf ∧
      validatePDFStructure buf = true := by
  refine ⟨buildPDFFile
      (createPDFDocument (processTextToLines t (sanitizeOptions opts cfg))
        (if (sanitizeOptions opts cfg).title = [] then str "Text Document"
          else (sanitizeOptions opts cfg).title)
        (sanitizeOptions opts cfg) d).1
      (createPDFDocument (processTextToLines t (sanitizeOptions opts cfg))
        (if (sanitizeOptions opts cfg).title = [] then str "Text Document"
          else (sanitizeOptions opts cfg).title)
        (sanitizeOptions opts cfg) d).2, ?_, ?_⟩
  · simp only [generatePDFFromText]
    rw [if_neg (by omega), if_neg (by omega), if_neg (by simp)]
  · apply validate_buildPDF
    · exact processTextToLines_safe t _ ht
    · by_cases hblank : (sanitizeOptions opts cfg).title = []
      · rw [if_pos hblank]
        decide
      · rw [if_neg hblank]
        exact hti

/-- Witness for claim C5 at `"Hello world"` with default options. -/
theorem claim_C5_witness :
    (0 < jsLen (str "Hello world") ∧
      jsLen (str "Hello world") ≤ cfgDefaults.maxContentSize ∧
      1 ≤ computedMcpl (sanitizeOptions ⟨none, none, none, .undef, none, none⟩ cfgDefaults) ∧
      1 ≤ computedLpp (sanitizeOptions ⟨none, none, none, .undef, none, none⟩ cfgDefaults) ∧
      escSafe (str "Hello world") ∧
      escSafe (sanitizeOptions ⟨none, none, none, .undef, none, none⟩ cfgDefaults).title) ∧
    ∃ buf, generatePDFFromText cfgDefaults false (some (str "Hello world"))
      ⟨none, none, none, .undef, none, none⟩ ⟨2026, 10, 12, 1, 2, 3⟩ =
        Except.ok buf ∧ validatePDFStructure buf = true :=
  ⟨⟨by decide, by decide, by decide, by decide, by decide, by decide⟩,
    claim_C5 cfgDefaults (str "Hello world") ⟨none, none, none, .undef, none, none⟩
      ⟨2026, 10, 12, 1, 2, 3⟩ (by decide) (by decide) (by decide) (by decide)
      (by decide) (by decide)⟩

/-- Counterexample to claim C5 as stated: the one-word input `trailer` is
non-empty and within the size limit, yet the validator rejects the returned
buffer — `indexOf('trailer')` finds the text inside the first content stream,
before `xref`. -/
theorem claim_C5_counterexample :
    ∃ buf, generatePDFFromText cfgDefaults false (some (str "trailer"))
      ⟨none, none, none, .undef, none, none⟩ ⟨2026, 10, 12, 1, 2, 3⟩ =
        Except.ok buf ∧ validatePDFStructure buf = false := by
  refine ⟨_, rfl, ?_⟩
  decide

end PdfGen

